import Mathlib

/-!
# EM-test-task: enrichment coordinator, filter assembly and list handler

A shallow embedding of the Go sources

* `internal/services/enrich/enrich.go`, `fetch.go` (the fan-out/join coordinator),
* `internal/storage/postgres/postgres.go` (`filter`, `countPeople`, `FilteredPages`),
* `internal/api/handlers/people/list/list.go` (the list handler),

followed by theorems about them.

Conventions.  A Go `error` is an `Option String` (`none` is `nil`).  A pointer that may be
`nil` is an `Option`.  Buffered channels are queues with a capacity; an operation that would
block for ever or panic makes the surrounding computation `none`.  The outcome of every
call into a library or the network (HTTP round trip, JSON decoding, the store) is an input
of the embedded function.
-/

namespace EMTestTask

/-! ## Go runtime pieces -/

/-- Go `error`: `none` is `nil`, `some msg` is a non-nil error carrying its message. -/
abbrev GoError := Option String

/-- A buffered Go channel: the queued values (oldest first), the capacity and the closed
flag. -/
structure Chan (α : Type) where
  buf : List α
  cap : Nat
  closed : Bool
deriving DecidableEq, Repr

namespace Chan

/-- The channel `make(chan α, cap)`. -/
def make {α : Type} (cap : Nat) : Chan α :=
  { buf := [], cap := cap, closed := false }

/-- The send `c <- v`.  Sending on a closed channel panics and sending on a full channel
that nobody receives from blocks for ever: both are `none`. -/
def send {α : Type} (c : Chan α) (v : α) : Option (Chan α) :=
  if c.closed then none
  else if c.buf.length < c.cap then some { c with buf := c.buf ++ [v] }
  else none

/-- The call `close(c)`. -/
def close {α : Type} (c : Chan α) : Chan α :=
  { c with closed := true }

/-- The receive `v, ok := <-c`: the oldest queued value with `ok = true`; on an empty closed
channel the zero value with `ok = false`; on an empty open channel it blocks (`none`). -/
def recv {α : Type} (zero : α) (c : Chan α) : Option (α × Bool × Chan α) :=
  match c.buf with
  | v :: rest => some (v, true, { c with buf := rest })
  | [] => if c.closed then some (zero, false, c) else none

end Chan

/-! ## The data model -/

/-- Modelled from the spec: the declaration of `models.Person` is not among the sources;
these are the fields the sources read and write (`enrich.go`, `enrich_test.go`,
`create.go`, `postgres.go`), Go `int` being an integer. -/
structure Person where
  Name : String
  Surname : String
  Patronymic : String
  Age : Int
  Gender : String
  Nationality : String
deriving DecidableEq, Repr

/-! ## `fetch.go` -/

/-- What reading and decoding the body of a `200` response gives: `io.ReadAll` fails,
`json.Unmarshal` fails, or the target is decoded to `v`. -/
inductive BodyOutcome (α : Type) where
  | readFailed (err : String)
  | unmarshalFailed (err : String)
  | decoded (v : α)
deriving DecidableEq, Repr

/-- What one outbound HTTP GET gives: building the request fails, the round trip fails, or
a response with a status code and a body arrives. -/
inductive HttpOutcome (α : Type) where
  | newRequestFailed (err : String)
  | doFailed (err : String)
  | response (StatusCode : Int) (body : BodyOutcome α)
deriving DecidableEq, Repr

/-- The constant `http.StatusOK`. -/
def StatusOK : Int := 200

/-- The method `fetchAPI`: the error it returns, or else the decoded target. -/
def fetchAPI {α : Type} (call : HttpOutcome α) : Except String α :=
  match call with
  | .newRequestFailed err => .error ("can't get request:" ++ err)
  | .doFailed err => .error ("request failed: " ++ err)
  | .response StatusCode body =>
    if StatusCode ≠ StatusOK then
      .error ("unexpected status code: " ++ toString StatusCode)
    else
      match body with
      | .readFailed err => .error ("read body failed: " ++ err)
      | .unmarshalFailed err => .error ("json unmarshal failed: " ++ err)
      | .decoded v => .ok v

/-- The local `result` of `fetchAge`. -/
structure AgeResult where
  Age : Int
deriving DecidableEq, Repr

/-- The local `result` of `fetchGender`. -/
structure GenderResult where
  Gender : String
deriving DecidableEq, Repr

/-- The local type `countryEntity` of `fetchNationality`.  The `float64` probability is only
carried, never inspected, by the code; a rational stands for it. -/
structure countryEntity where
  CountryID : String
  Probability : Rat
deriving DecidableEq, Repr

/-- The local `result` of `fetchNationality`; a missing or `null` `country` key decodes to
the empty list. -/
structure NationalityResult where
  Countries : List countryEntity
deriving DecidableEq, Repr

/-- The variables of one `Enrich` call that its three goroutines share: the `WaitGroup`
counter and the four channels. -/
structure EnrichState where
  wg : Nat
  ageResult : Chan Int
  genderResult : Chan String
  nationalityResult : Chan String
  errChan : Chan GoError
deriving DecidableEq, Repr

/-- The call `wg.Done()`; it panics when the counter would become negative. -/
def wgDone (s : EnrichState) : Option EnrichState :=
  if s.wg = 0 then none else some { s with wg := s.wg - 1 }

/-- The method `fetchAge`, run to completion from state `s` (the deferred `wg.Done()` runs
last). -/
def fetchAge (call : HttpOutcome AgeResult) (s : EnrichState) : Option EnrichState :=
  match fetchAPI call with
  | .error err => do
    let errChan ← s.errChan.send (some ("age API: " ++ err))
    wgDone { s with errChan := errChan }
  | .ok result => do
    let resultChan ← s.ageResult.send result.Age
    wgDone { s with ageResult := resultChan }

/-- The method `fetchGender`. -/
def fetchGender (call : HttpOutcome GenderResult) (s : EnrichState) : Option EnrichState :=
  match fetchAPI call with
  | .error err => do
    let errChan ← s.errChan.send (some ("age API err: " ++ err))
    wgDone { s with errChan := errChan }
  | .ok result => do
    let resultChan ← s.genderResult.send result.Gender
    wgDone { s with genderResult := resultChan }

/-- The method `fetchNationality`. -/
def fetchNationality (call : HttpOutcome NationalityResult) (s : EnrichState) :
    Option EnrichState :=
  match fetchAPI call with
  | .error err => do
    let errChan ← s.errChan.send (some ("nationality API err: " ++ err))
    wgDone { s with errChan := errChan }
  | .ok result =>
    if h : result.Countries.length < 1 then do
      let err := "len of nationality less 1"
      let errChan ← s.errChan.send (some ("nationality API err: " ++ err))
      wgDone { s with errChan := errChan }
    else do
      let resultChan ←
        s.nationalityResult.send (result.Countries.get ⟨0, by omega⟩).CountryID
      wgDone { s with nationalityResult := resultChan }

/-! ## `enrich.go` -/

/-- The three goroutines of one `Enrich` call. -/
inductive Fetcher where
  | age
  | gender
  | nationality
deriving DecidableEq, Repr

/-- The order in which the three goroutines perform their single channel send: the
scheduler may pick any of the six. -/
inductive Schedule where
  | ageGenderNationality
  | ageNationalityGender
  | genderAgeNationality
  | genderNationalityAge
  | nationalityAgeGender
  | nationalityGenderAge
deriving DecidableEq, Repr

/-- The goroutines in the order of a schedule. -/
def Schedule.order : Schedule → List Fetcher
  | .ageGenderNationality => [.age, .gender, .nationality]
  | .ageNationalityGender => [.age, .nationality, .gender]
  | .genderAgeNationality => [.gender, .age, .nationality]
  | .genderNationalityAge => [.gender, .nationality, .age]
  | .nationalityAgeGender => [.nationality, .age, .gender]
  | .nationalityGenderAge => [.nationality, .gender, .age]

/-- The outcomes of the three outbound calls of one `Enrich` call. -/
structure Sources where
  age : HttpOutcome AgeResult
  gender : HttpOutcome GenderResult
  nationality : HttpOutcome NationalityResult
deriving DecidableEq, Repr

/-- One goroutine run to completion. -/
def runFetcher (src : Sources) : Fetcher → EnrichState → Option EnrichState
  | .age, s => fetchAge src.age s
  | .gender, s => fetchGender src.gender s
  | .nationality, s => fetchNationality src.nationality s

/-- The goroutines run in the given order. -/
def runFetchers (src : Sources) : List Fetcher → EnrichState → Option EnrichState
  | [], s => some s
  | f :: fs, s => (runFetcher src f s).bind (runFetchers src fs)

/-- What a call `Enrich(ctx, person)` leaves behind: the returned pointer (`none` is `nil`,
`some p` the argument, whose fields are then `p`), the returned error, and the fields of the
caller's Person after the call. -/
structure EnrichReturn where
  ret : Option Person
  err : GoError
  person : Person
deriving DecidableEq, Repr

/-- The state after `wg.Add(3)`: three result channels of capacity 1, an error channel of
capacity 3. -/
def enrichInit : EnrichState :=
  { wg := 3
    ageResult := Chan.make 1
    genderResult := Chan.make 1
    nationalityResult := Chan.make 1
    errChan := Chan.make 3 }

/-- The method `Enrich`.  `wg.Wait()` returns only when the counter is zero. -/
def Enrich (src : Sources) (sched : Schedule) (person : Person) : Option EnrichReturn := do
  let s ← runFetchers src sched.order enrichInit
  if s.wg ≠ 0 then none
  else
    let errChan := s.errChan.close
    let ageResult := s.ageResult.close
    let genderResult := s.genderResult.close
    let nationalityResult := s.nationalityResult.close
    let (err, opened, _) ← errChan.recv none
    if err ≠ none ∧ ¬ opened then
      some { ret := none
             err := some ("failed to enrich person data: " ++ err.getD "")
             person := person }
    else
      let (age, _, _) ← ageResult.recv 0
      let person := { person with Age := age }
      let (gender, _, _) ← genderResult.recv ""
      let person := { person with Gender := gender }
      let (nationality, _, _) ← nationalityResult.recv ""
      let person := { person with Nationality := nationality }
      some { ret := some person, err := none, person := person }

/-! ## `filters.go` and the query assembly of `postgres.go` -/

/-- The struct `filters.Options`: a `nil` pointer field is `none`. -/
structure Options where
  Name : Option String
  Surname : Option String
  Patronymic : Option String
  Age : Option Int
  MinAge : Option Int
  MaxAge : Option Int
  Gender : Option String
  Nationality : Option String
deriving DecidableEq, Repr

/-- A statement argument (`interface{}`): the filters bind strings and ints. -/
inductive Arg where
  | str (s : String)
  | int (i : Int)
deriving DecidableEq, Repr

def PeopleTable : String := "people"
def NameColumn : String := "name"
def SurnameColumn : String := "surname"
def PatronymicColumn : String := "patronymic"
def AgeColumn : String := "age"
def GenderColumn : String := "gender"
def NationalityColumn : String := "nationality"

/-- The local variables `whereClauses`, `args` and `argNum` of `filter`. -/
structure FilterVars where
  whereClauses : List String
  args : List Arg
  argNum : Nat
deriving DecidableEq, Repr

/-- The body shared by the eight `if` blocks of `filter`: append the clause, append the
argument, increment `argNum`. -/
def FilterVars.push (v : FilterVars) (clause : String) (arg : Arg) : FilterVars :=
  { whereClauses := v.whereClauses ++ [clause]
    args := v.args ++ [arg]
    argNum := v.argNum + 1 }

/-- The eight `if` blocks of `filter`, in source order; `toString argNum` is the `%d` of
`fmt.Sprintf`. -/
def filterVars (options : Options) : FilterVars :=
  let v : FilterVars := { whereClauses := [], args := [], argNum := 1 }
  let v := match options.Name with
    | some x => v.push (NameColumn ++ " = $" ++ toString v.argNum) (.str x)
    | none => v
  let v := match options.Surname with
    | some x => v.push (SurnameColumn ++ " = $" ++ toString v.argNum) (.str x)
    | none => v
  let v := match options.Patronymic with
    | some x => v.push (PatronymicColumn ++ " = $" ++ toString v.argNum) (.str x)
    | none => v
  let v := match options.Gender with
    | some x => v.push (GenderColumn ++ " = $" ++ toString v.argNum) (.str x)
    | none => v
  let v := match options.Nationality with
    | some x => v.push (NationalityColumn ++ " = $" ++ toString v.argNum) (.str x)
    | none => v
  let v := match options.Age with
    | some x => v.push (AgeColumn ++ " = $" ++ toString v.argNum) (.int x)
    | none => v
  let v := match options.Age, options.MinAge with
    | none, some x => v.push (AgeColumn ++ " => $" ++ toString v.argNum) (.int x)
    | _, _ => v
  let v := match options.Age, options.MaxAge with
    | none, some x => v.push (AgeColumn ++ " <= $" ++ toString v.argNum) (.int x)
    | _, _ => v
  v

/-- The function `filter`: the query with its WHERE clause, and the arguments. -/
def filter (query : String) (options : Options) : String × List Arg :=
  let v := filterVars options
  let query :=
    if v.whereClauses.length > 0 then
      query ++ " WHERE " ++ " AND ".intercalate v.whereClauses
    else query
  (query, v.args)

/-- The statement and arguments `countPeople` hands to `QueryRow`.  Its `args` parameter is
overwritten by the result of `filter` before it is read. -/
def countPeople (options : Options) (_args : List Arg) : String × List Arg :=
  let query := "SELECT COUNT(*) FROM " ++ PeopleTable
  filter query options

/-- The page query of `FilteredPages` before `filter` is applied. -/
def pageSelect : String :=
  "\n\t\tSELECT " ++ NameColumn ++ ", " ++ SurnameColumn ++ ", " ++ PatronymicColumn ++ ", "
    ++ AgeColumn ++ ", " ++ GenderColumn ++ ", " ++ NationalityColumn ++ " \n\t\tFROM "
    ++ PeopleTable ++ " "

/-- The statements of one `FilteredPages` call: what it hands to `countPeople`, and the page
statement and arguments it hands to `Query`. -/
structure PageStatements where
  count : String × List Arg
  page : String × List Arg
deriving DecidableEq, Repr

/-- The query assembly of `FilteredPages`. -/
def FilteredPages (offset limit : Int) (options : Options) : PageStatements :=
  let query := pageSelect
  let (query, args) := filter query options
  let count := countPeople options args
  let query := query ++ (" OFFSET ($" ++ toString (args.length + 1) ++ ") LIMIT ($"
    ++ toString (args.length + 2) ++ ")")
  let args := args ++ [.int offset, .int limit]
  { count := count, page := (query, args) }

/-! ## `list.go` -/

/-- The width of Go `int` on the 64-bit targets the service is built for. -/
def intBits : Nat := 64

/-- Wrap-around of Go `int` arithmetic: the representative of `x` modulo `2 ^ 64` in
`[-2 ^ 63, 2 ^ 63)`. -/
def wrapInt (x : Int) : Int :=
  (x + 2 ^ (intBits - 1)) % 2 ^ intBits - 2 ^ (intBits - 1)

/-- The value of a decimal digit. -/
def digitValue (c : Char) : Option Nat :=
  if '0' ≤ c ∧ c ≤ '9' then some (c.toNat - '0'.toNat) else none

/-- The value of a string of decimal digits read after the value `acc`; `none` when a
character is not a digit. -/
def parseDigits (acc : Nat) : List Char → Option Nat
  | [] => some acc
  | c :: cs =>
    match digitValue c with
    | some d => parseDigits (10 * acc + d) cs
    | none => none

/-- The library function `strconv.Atoi` as its documentation describes it: an optional sign,
then one or more decimal digits, the value fitting in `int`; everything else is an error
(`none`). -/
def Atoi (s : String) : Option Int :=
  let (negative, digits) :=
    match s.data with
    | '+' :: rest => (false, rest)
    | '-' :: rest => (true, rest)
    | rest => (false, rest)
  if digits = [] then none
  else
    match parseDigits 0 digits with
    | none => none
    | some n =>
      let v : Int := if negative then -(n : Int) else (n : Int)
      if -2 ^ (intBits - 1) ≤ v ∧ v < 2 ^ (intBits - 1) then some v else none

/-- The URL query of a request: the value of a key when the key is present. -/
abbrev UrlQuery := String → Option String

/-- The gin call `c.Query(key)`: the value, or the empty string when the key is absent. -/
def Query (q : UrlQuery) (key : String) : String :=
  (q key).getD ""

/-- The gin call `c.DefaultQuery(key, defaultValue)`. -/
def DefaultQuery (q : UrlQuery) (key defaultValue : String) : String :=
  (q key).getD defaultValue

def defaultLimit : String := "10"
def defaultPage : String := "1"

/-- The message of the sentinel `ErrConvertParam`. -/
def ErrConvertParam : String := "can't convernt int query parameter"

/-- The function `setFilterQueries`.  Every error it returns wraps `ErrConvertParam`. -/
def setFilterQueries (q : UrlQuery) : Except String Options := do
  let mut op : Options :=
    { Name := none, Surname := none, Patronymic := none, Age := none
      MinAge := none, MaxAge := none, Gender := none, Nationality := none }
  let name := Query q "name"
  if name ≠ "" then
    op := { op with Name := some name }
  let surname := Query q "surname"
  if surname ≠ "" then
    op := { op with Surname := some surname }
  let patronymic := Query q "patronymic"
  if patronymic ≠ "" then
    op := { op with Patronymic := some patronymic }
  let gender := Query q "gender"
  if gender ≠ "" then
    op := { op with Gender := some gender }
  let nationality := Query q "nationality"
  if nationality ≠ "" then
    op := { op with Nationality := some nationality }
  let age := Query q "age"
  if age ≠ "" then
    match Atoi age with
    | none => throw (ErrConvertParam ++ ":" ++ age)
    | some ageInt =>
      op := { op with Age := some ageInt }
      return op
  let minAge := Query q "minAge"
  if minAge ≠ "" then
    match Atoi age with
    | none => throw (ErrConvertParam ++ ":" ++ minAge)
    | some minAgeInt => op := { op with MinAge := some minAgeInt }
  let maxAge := Query q "maxAge"
  if maxAge ≠ "" then
    match Atoi maxAge with
    | none => throw (ErrConvertParam ++ ":" ++ minAge)
    | some maxAgeInt => op := { op with MaxAge := some maxAgeInt }
  return op

/-- Modelled from the spec: the declaration of `types.Pagination` is not among the sources;
the handler writes its fields `Page` and `Limit`. -/
structure Pagination where
  Page : Int
  Limit : Int
deriving DecidableEq, Repr

/-- Modelled from the spec: the declaration of `types.Meta` is not among the sources; these
are the pagination metadata the handler fills in (total, limit, offset, has-next). -/
structure Meta where
  Total : Int
  Limit : Int
  Offset : Int
  Next : Bool
deriving DecidableEq, Repr

/-- The bodies the list handler passes to `c.JSON`. -/
inductive Body where
  | text (msg : String)
  | error (msg : String)
  | list (data : List Person) (pageMeta : Meta)
deriving DecidableEq, Repr

/-- What a run of the list handler does, in order: responses written with `c.JSON` and calls
of `Pager.FilteredPages` (`options` is `none` for a `nil` pointer). -/
inductive Event where
  | json (code : Int) (body : Body)
  | filteredPages (offset limit : Int) (options : Option Options)
deriving DecidableEq, Repr

/-- The interface `Pager`: what the store answers to `FilteredPages(ctx, offset, limit,
options)`: the people, the total count and the error. -/
abbrev Pager := Int → Int → Option Options → List Person × Int × GoError

def StatusBadRequest : Int := 400
def StatusInternalServerError : Int := 500

/-- The handler `New(log, Pager)` run on one request.  `Offset` is the method
`types.Pagination.Offset`, whose code is not among the sources. -/
def New (Offset : Pagination → Int) (pager : Pager) (q : UrlQuery) : List Event :=
  let (filterOp, events) : Option Options × List Event :=
    match setFilterQueries q with
    | .error _ => (none, [.json StatusBadRequest (.error "Invalid Parameters")])
    | .ok op => (some op, [])
  let pageQuery := DefaultQuery q "page" defaultPage
  let events :=
    if pageQuery = "0" then
      events ++ [.json StatusBadRequest (.text "page parameter can't be 0")]
    else events
  match Atoi pageQuery with
  | none => events ++ [.json StatusBadRequest (.error ("Invalid parameter:" ++ pageQuery))]
  | some page =>
    let limitQurey := DefaultQuery q "limit" defaultLimit
    match Atoi limitQurey with
    | none => events ++ [.json StatusBadRequest (.error ("Invalid parameter:" ++ limitQurey))]
    | some limit =>
      let pag : Pagination := { Page := page, Limit := limit }
      let offset := Offset pag
      let events := events ++ [.filteredPages offset pag.Limit filterOp]
      match pager offset pag.Limit filterOp with
      | (_, _, some _) =>
        events ++ [.json StatusInternalServerError (.error "Internal Server Error")]
      | (users, count, none) =>
        let pageMeta : Meta :=
          { Total := count
            Limit := pag.Limit
            Offset := Offset pag
            Next := decide (wrapInt (Offset pag + pag.Limit) < count) }
        events ++ [.json StatusOK (.list users pageMeta)]

/-! ## Errors of the store -/

/-- The errors of the database driver as `postgres.go` tells them apart: the sentinel
`pgx.ErrNoRows`, or any other error with its message. -/
inductive PgxError where
  | ErrNoRows
  | other (msg : String)
deriving DecidableEq, Repr

/-- The method `Error()` of a driver error. -/
def PgxError.Error : PgxError → String
  | .ErrNoRows => "no rows in result set"
  | .other msg => msg

/-- The errors a store method returns, as the handlers tell them apart with
`errors.Is(err, storage.ErrIDNotFound)`: the sentinel, or any other error with its
message. -/
inductive StorageError where
  | ErrIDNotFound
  | fault (msg : String)
deriving DecidableEq, Repr

def ErrTxBegin : String := "can't start transaction"
def ErrTxCommit : String := "can't commit transaction"
def ErrQuery : String := "can't do query"

/-- The method `PostgreStorage.Update`, given what the driver answers to `BeginTx`, to the
`Exec` of the UPDATE statement and to `Commit` (`none` is a nil error). -/
def Update (beginTx exec commit : Option PgxError) : Option StorageError :=
  match beginTx with
  | some err => some (.fault (ErrTxBegin ++ ":" ++ err.Error))
  | none =>
    match exec with
    | some .ErrNoRows => some .ErrIDNotFound
    | _ =>
      match commit with
      | some err => some (.fault (ErrTxCommit ++ ":" ++ err.Error))
      | none => none

/-! ## Responses of the create, update and delete handlers -/

/-- The bodies the create, update and delete handlers pass to `c.JSON`: `response.OK()`,
`response.Error(msg)`, `response.ValidationError(errs)`, `nil`, the create `Response` with
the new id, and the update `Response` with the person. -/
inductive Reply where
  | OK
  | Error (msg : String)
  | ValidationError
  | null
  | created (ID : Int)
  | updated (person : Person)
deriving DecidableEq, Repr

def StatusNoContent : Int := 204

/-- What scanning the digits of a number gives, as `strconv.ParseUint` scans them from left
to right: a syntax error at the first character that is no digit, a range error as soon as
the value no longer fits in 64 bits, or else the value. -/
inductive UintScan where
  | syntaxError
  | rangeError
  | value (n : Nat)
deriving DecidableEq, Repr

/-- The scan of the digits after the value `n`: whichever comes first, a character that is
no digit or the overflow, decides the error. -/
def scanUint (n : Nat) : List Char → UintScan
  | [] => .value n
  | c :: cs =>
    match digitValue c with
    | none => .syntaxError
    | some d => if 2 ^ intBits ≤ 10 * n + d then .rangeError else scanUint (10 * n + d) cs

/-- The int `strconv.Atoi` returns next to a non-nil error: 0 on a syntax error, the nearest
`int` on a range error.  The text is scanned from left to right, so digits that overflow
before a character that is no digit give the range error. -/
def AtoiErrValue (s : String) : Int :=
  let (negative, digits) :=
    match s.data with
    | '+' :: rest => (false, rest)
    | '-' :: rest => (true, rest)
    | rest => (false, rest)
  let nearest : Int := if negative then -2 ^ (intBits - 1) else 2 ^ (intBits - 1) - 1
  if digits = [] then 0
  else
    match scanUint 0 digits with
    | .syntaxError => 0
    | .rangeError => nearest
    | .value n =>
      let v : Int := if negative then -(n : Int) else (n : Int)
      if -2 ^ (intBits - 1) ≤ v ∧ v < 2 ^ (intBits - 1) then v else nearest

/-! ## `delete.go` -/

namespace deleteHandler

/-- What a run of the delete handler does, in order: responses written with `c.JSON` and
calls of `Deleter.Delete`. -/
inductive Event where
  | json (code : Int) (body : Reply)
  | delete (id : Int)
deriving DecidableEq, Repr

/-- The handler `New(log, Deleter)` run on one request with path parameter `id`. -/
def New (Deleter : Int → Option StorageError) (paramId : String) : List Event :=
  let (id, events) : Int × List Event :=
    match Atoi paramId with
    | none => (AtoiErrValue paramId, [.json StatusBadRequest (.Error "Invalid ID")])
    | some id => (id, [])
  let events := events ++ [.delete id]
  match Deleter id with
  | some err =>
    let events :=
      if err = .ErrIDNotFound then events ++ [.json StatusNoContent .null] else events
    events ++ [.json StatusInternalServerError (.Error "Internal server error")]
  | none => events ++ [.json StatusOK .OK]

end deleteHandler

/-! ## `create.go` -/

namespace create

/-- The struct `Request` of the create handler; a key missing from the JSON body leaves the
empty string. -/
structure Request where
  Name : String
  Surname : String
  Patronymic : String
deriving DecidableEq, Repr

/-- The outcome of `validator.New().Struct(req)` for the tags of `Request`, as the
validator library documents them: `required` is a non-empty string, `min=2,max=50` bound
the number of characters, `omitempty` skips an empty string. -/
def validStruct (req : Request) : Bool :=
  (req.Name ≠ "" && 2 ≤ req.Name.length && req.Name.length ≤ 50) &&
  (req.Surname ≠ "" && 2 ≤ req.Surname.length && req.Surname.length ≤ 50) &&
  (req.Patronymic = "" || (2 ≤ req.Patronymic.length && req.Patronymic.length ≤ 50))

/-- What a run of the create handler does, in order: responses written with `c.JSON`, calls
of `Enricher.Enrich` and `Saver.Save`, and a nil-pointer panic. -/
inductive Event where
  | json (code : Int) (body : Reply)
  | enrich (person : Person)
  | save (entity : Person)
  | panic
deriving DecidableEq, Repr

/-- The interface `IEnricher`: the pointer (`none` is `nil`) and error `Enrich` returns. -/
abbrev IEnricher := Person → Option Person × GoError

/-- The interface `PersonSaver`: the id and error `Save` returns. -/
abbrev PersonSaver := Person → Int × GoError

/-- The handler `New(log, Enricher, Saver)` run on one request whose body `c.BindJSON`
decodes to `body` or fails on. -/
def New (Enricher : IEnricher) (Saver : PersonSaver) (body : Except String Request) :
    List Event :=
  match body with
  | .error _ => [.json StatusBadRequest (.Error "failed to decode request body")]
  | .ok req =>
    if ¬ validStruct req then [.json StatusBadRequest .ValidationError]
    else
      let person : Person :=
        { Name := req.Name, Surname := req.Surname, Patronymic := req.Patronymic
          Age := 0, Gender := "", Nationality := "" }
      let events : List Event := [.enrich person]
      match Enricher person with
      | (_, some _) =>
        events ++ [.json StatusInternalServerError (.Error "Internal server error")]
      | (none, none) => events ++ [.panic]
      | (some person, none) =>
        let person :=
          if person.Patronymic = "" ∨ person.Patronymic = " " then
            { person with Patronymic := "N/A" }
          else person
        let events := events ++ [.save person]
        match Saver person with
        | (_, some _) =>
          events ++ [.json StatusInternalServerError (.Error "Internal server error")]
        | (id, none) => events ++ [.json StatusOK (.created id)]

end create

/-! ## `update.go` -/

namespace update

/-- The struct `Request` of the update handler: a `nil` pointer field is `none`. -/
structure Request where
  Name : Option String
  Surname : Option String
  Patronymic : Option String
  Age : Option Int
  Gender : Option String
  Nationality : Option String
deriving DecidableEq, Repr

/-- The method `Request.Validate`. -/
def Request.Validate (r : Request) : GoError :=
  if r.Name = none ∧ r.Surname = none ∧ r.Patronymic = none ∧
      r.Age = none ∧ r.Gender = none ∧ r.Nationality = none then
    some "at least one field must be provided"
  else none

/-- The function `checkForUpdates`: the person after the six assignments. -/
def checkForUpdates (req : Request) (person : Person) : Person :=
  let person := match req.Name with
    | some v => { person with Name := v }
    | none => person
  let person := match req.Surname with
    | some v => { person with Surname := v }
    | none => person
  let person := match req.Patronymic with
    | some v => { person with Patronymic := v }
    | none => person
  let person := match req.Age with
    | some v => { person with Age := v }
    | none => person
  let person := match req.Gender with
    | some v => { person with Gender := v }
    | none => person
  let person := match req.Nationality with
    | some v => { person with Nationality := v }
    | none => person
  person

/-- What a run of the update handler does, in order: responses written with `c.JSON` and
calls of `Provider.FindByID` and `Updater.Update`. -/
inductive Event where
  | json (code : Int) (body : Reply)
  | findByID (id : Int)
  | update (entity : Person) (id : Int)
deriving DecidableEq, Repr

/-- The interface `UserProvider`: the error or else the person `FindByID` returns. -/
abbrev UserProvider := Int → Except StorageError Person

/-- The interface `PersonUpdater`: the error `Update` returns. -/
abbrev PersonUpdater := Person → Int → Option StorageError

/-- The handler `New(log, Provider, Updater)` run on one request with path parameter `id`
and a body that `c.ShouldBindJSON` decodes to `body` or fails on.  `structValid` is the
outcome of `validator.New().Struct(req)`, a library call. -/
def New (structValid : Request → Bool) (Provider : UserProvider) (Updater : PersonUpdater)
    (prarmId : String) (body : Except String Request) : List Event :=
  let (id, events) : Int × List Event :=
    match Atoi prarmId with
    | none => (AtoiErrValue prarmId, [.json StatusBadRequest (.Error "Invalid ID")])
    | some id => (id, [])
  match body with
  | .error _ => events ++ [.json StatusBadRequest (.Error "failed to decode request body")]
  | .ok req =>
    match req.Validate with
    | some err => events ++ [.json StatusBadRequest (.Error err)]
    | none =>
      if ¬ structValid req then events ++ [.json StatusBadRequest .ValidationError]
      else
        let events := events ++ [.findByID id]
        match Provider id with
        | .error .ErrIDNotFound => events ++ [.json StatusNoContent .null]
        | .error (.fault _) =>
          events ++ [.json StatusInternalServerError (.Error "Internal server error")]
        | .ok person =>
          let person := checkForUpdates req person
          let events := events ++ [.update person id]
          match Updater person id with
          | some .ErrIDNotFound => events ++ [.json StatusNoContent .null]
          | some (.fault _) =>
            events ++ [.json StatusInternalServerError (.Error "Internal server error")]
          | none => events ++ [.json StatusOK (.updated person)]

end update

/-! ## The predicate set in the words of the specification -/

/-- The filter fields, in the order in which `filter` visits them. -/
inductive Field where
  | name
  | surname
  | patronymic
  | gender
  | nationality
  | age
  | minAge
  | maxAge
deriving DecidableEq, Repr

/-- All filter fields. -/
def Field.all : List Field :=
  [.name, .surname, .patronymic, .gender, .nationality, .age, .minAge, .maxAge]

/-- The value a filter field holds, when the field is present. -/
def Field.value (o : Options) : Field → Option Arg
  | .name => o.Name.map .str
  | .surname => o.Surname.map .str
  | .patronymic => o.Patronymic.map .str
  | .gender => o.Gender.map .str
  | .nationality => o.Nationality.map .str
  | .age => o.Age.map .int
  | .minAge => o.MinAge.map .int
  | .maxAge => o.MaxAge.map .int

/-- A field counts when it is present; min age and max age count only when exact age is
absent. -/
def Field.counted (o : Options) : Field → Bool
  | .minAge => o.MinAge.isSome && o.Age.isNone
  | .maxAge => o.MaxAge.isSome && o.Age.isNone
  | f => (f.value o).isSome

/-- The text of the predicate of a field whose value is bound to placeholder `k`. -/
def Field.predicate : Field → Nat → String
  | .name, k => NameColumn ++ " = $" ++ toString k
  | .surname, k => SurnameColumn ++ " = $" ++ toString k
  | .patronymic, k => PatronymicColumn ++ " = $" ++ toString k
  | .gender, k => GenderColumn ++ " = $" ++ toString k
  | .nationality, k => NationalityColumn ++ " = $" ++ toString k
  | .age, k => AgeColumn ++ " = $" ++ toString k
  | .minAge, k => AgeColumn ++ " => $" ++ toString k
  | .maxAge, k => AgeColumn ++ " <= $" ++ toString k

/-- The fields that count, in order. -/
def countedFields (o : Options) : List Field :=
  Field.all.filter (Field.counted o)

/-- One predicate per counted field, the i-th bound to placeholder `i`. -/
def numberedPredicates (o : Options) : List String :=
  (countedFields o).enum.map (fun p => p.2.predicate (p.1 + 1))

/-- The values of the counted fields, in the order of their predicates. -/
def countedValues (o : Options) : List Arg :=
  (countedFields o).filterMap (Field.value o)

/-- The text `filter` appends to a query: empty, or the WHERE clause. -/
def whereClause (o : Options) : String :=
  (filter "" o).1

/-- The arguments `filter` returns. -/
def whereArgs (o : Options) : List Arg :=
  (filter "" o).2

/-- The text `sub` occurs in the text `s` as a contiguous piece. -/
def occursIn (sub s : String) : Prop :=
  sub.data <:+: s.data

instance (sub s : String) : Decidable (occursIn sub s) := by
  unfold occursIn; infer_instance

/-- The options without any filter. -/
def noFilter : Options :=
  { Name := none, Surname := none, Patronymic := none, Age := none
    MinAge := none, MaxAge := none, Gender := none, Nationality := none }

/-- The URL query `?key=value`. -/
def singleParam (key value : String) : UrlQuery :=
  fun k => if k = key then some value else none

/-! ## Placeholders of a statement -/

/-- The state of a scan for placeholders: the number being read after a `$`, if one is
being read, and the placeholder numbers found before it. -/
structure ScanState where
  current : Option Nat
  found : List Nat
deriving DecidableEq, Repr

/-- The placeholders found once the number being read is complete. -/
def ScanState.flush (st : ScanState) : List Nat :=
  match st.current with
  | some n => st.found ++ [n]
  | none => st.found

/-- One character of the scan: `$` starts a placeholder number, a digit continues the
number being read, any other character ends it. -/
def scanStep (st : ScanState) (c : Char) : ScanState :=
  if c = '$' then { current := some 0, found := st.flush }
  else
    match st.current, digitValue c with
    | some n, some d => { current := some (10 * n + d), found := st.found }
    | _, _ => { current := none, found := st.flush }

/-- The numbers of the placeholders `$k` of a statement, in the order in which they
occur. -/
def placeholders (s : String) : List Nat :=
  (s.data.foldl scanStep { current := none, found := [] }).flush

/-- The text of a predicate before its placeholder number. -/
def Field.head : Field → String
  | .name => NameColumn ++ " = $"
  | .surname => SurnameColumn ++ " = $"
  | .patronymic => PatronymicColumn ++ " = $"
  | .gender => GenderColumn ++ " = $"
  | .nationality => NationalityColumn ++ " = $"
  | .age => AgeColumn ++ " = $"
  | .minAge => AgeColumn ++ " => $"
  | .maxAge => AgeColumn ++ " <= $"

/-- The predicates of a list of fields, the first one bound to placeholder `m + 1`. -/
def numberFrom (m : Nat) : List Field → List String
  | [] => []
  | f :: fs => f.predicate (m + 1) :: numberFrom (m + 1) fs

/-- The state of the scan at the end of a WHERE clause with `n` predicates. -/
def scanAfter (n : Nat) : ScanState :=
  match n with
  | 0 => { current := none, found := [] }
  | k + 1 => { current := some (k + 1), found := List.range' 1 k }

/-! ## The join invariant -/

/-- The goroutines in `fs` have not run yet and can all complete from state `s`. -/
def Pending (fs : List Fetcher) (s : EnrichState) : Prop :=
  s.wg = fs.length ∧
  s.errChan.closed = false ∧ s.errChan.buf.length + fs.length ≤ s.errChan.cap ∧
  (Fetcher.age ∈ fs →
    s.ageResult.closed = false ∧ s.ageResult.buf.length < s.ageResult.cap) ∧
  (Fetcher.gender ∈ fs →
    s.genderResult.closed = false ∧ s.genderResult.buf.length < s.genderResult.cap) ∧
  (Fetcher.nationality ∈ fs →
    s.nationalityResult.closed = false ∧
      s.nationalityResult.buf.length < s.nationalityResult.cap)

/-- How many values are queued on the result channel of a goroutine. -/
def resultCount (s : EnrichState) : Fetcher → Nat
  | .age => s.ageResult.buf.length
  | .gender => s.genderResult.buf.length
  | .nationality => s.nationalityResult.buf.length

/-- Between the states `s` and `s'` the goroutine `f` signalled completion once and
performed exactly one send: either one value on its own result channel with the error
channel untouched, or one error on the error channel with its result channel untouched; the
result channels of the other goroutines are untouched. -/
def SentOnce (f : Fetcher) (s s' : EnrichState) : Prop :=
  s'.wg + 1 = s.wg ∧
  ((resultCount s' f = resultCount s f + 1 ∧ s'.errChan = s.errChan) ∨
    (resultCount s' f = resultCount s f ∧
      ∃ e, s'.errChan.buf = s.errChan.buf ++ [some e])) ∧
  (f ≠ .age → s'.ageResult = s.ageResult) ∧
  (f ≠ .gender → s'.genderResult = s.genderResult) ∧
  (f ≠ .nationality → s'.nationalityResult = s.nationalityResult)

/-- All sends so far: the values queued on the three result channels and on the error
channel. -/
def totalSent (s : EnrichState) : Nat :=
  resultCount s .age + resultCount s .gender + resultCount s .nationality +
    s.errChan.buf.length

/-! ## Inputs used in the examples -/

/-- A source that answers `200 OK` with a body that decodes to `v`. -/
def okSource {α : Type} (v : α) : HttpOutcome α :=
  .response StatusOK (.decoded v)

/-- The Person the create handler builds for the request of the example scenario: the three
derived fields still hold their zero values. -/
def oleg : Person :=
  { Name := "Oleg", Surname := "Petrov", Patronymic := "Ivanovich"
    Age := 0, Gender := "", Nationality := "" }

/-- The sources of the example scenario: age 55, gender "male", countries UA then RU. -/
def olegSources : Sources :=
  { age := okSource { Age := 55 }
    gender := okSource { Gender := "male" }
    nationality := okSource { Countries := [⟨"UA", 9 / 10⟩, ⟨"RU", 1 / 20⟩] } }

/-- The example scenario with the gender source answering HTTP 500. -/
def genderDownSources : Sources :=
  { olegSources with gender := .response 500 (.decoded { Gender := "male" }) }

/-- The example scenario with the nationality source answering an empty country list. -/
def noCountrySources : Sources :=
  { olegSources with nationality := okSource { Countries := [] } }

/-- The URL query `?minAge=..`, with `&maxAge=..` when a max age is given. -/
def ageRangeQuery (minAge : String) (maxAge : Option String) : UrlQuery :=
  fun k => if k = "minAge" then some minAge else if k = "maxAge" then maxAge else none

/-- The update request without any field. -/
def update.noFields : update.Request :=
  { Name := none, Surname := none, Patronymic := none
    Age := none, Gender := none, Nationality := none }

/-- An enricher that succeeds like the sources of the example scenario. -/
def exampleEnricher : create.IEnricher :=
  fun p => (some { p with Age := 55, Gender := "male", Nationality := "UA" }, none)

/-- A store that saves with id 1. -/
def exampleSaver : create.PersonSaver :=
  fun _ => (1, none)

/-- The URL query `?page=..&limit=..`. -/
def pageLimitQuery (page limit : String) : UrlQuery :=
  fun k => if k = "page" then some page else if k = "limit" then some limit else none

/-- Modelled from the spec: the method `types.Pagination.Offset` is not among the sources;
a page starts after the records of the pages before it, `(Page - 1) * Limit` in `int`
arithmetic. -/
def pageOffset (p : Pagination) : Int :=
  wrapInt ((p.Page - 1) * p.Limit)

/-! ## Theorems: the enrichment coordinator -/

/-- A pending goroutine runs to completion with exactly one send, and leaves the others
pending. -/
theorem runFetcher_step (src : Sources) (f : Fetcher) (fs : List Fetcher)
    (s : EnrichState) (hf : f ∉ fs) (h : Pending (f :: fs) s) :
    ∃ s', runFetcher src f s = some s' ∧ Pending fs s' ∧ SentOnce f s s' := by
  obtain ⟨hwg, hec, her, ha, hg, hn⟩ := h
  simp only [List.length_cons] at hwg her
  have hwg0 : s.wg ≠ 0 := by omega
  have hroom : s.errChan.buf.length < s.errChan.cap := by omega
  cases f with
  | age =>
    obtain ⟨hc, hr⟩ := ha (by simp)
    cases hcall : fetchAPI src.age with
    | error e =>
      refine ⟨_, by simp [runFetcher, fetchAge, hcall, Chan.send, hec, hroom, wgDone, hwg0]; rfl, ?_, ?_⟩
      · refine ⟨by simp; omega, rfl, by simp; omega, fun hm => absurd hm hf,
          fun hm => hg (by simp [hm]), fun hm => hn (by simp [hm])⟩
      · exact ⟨by simp only; omega, Or.inr ⟨rfl, _, rfl⟩, fun _ => rfl, fun _ => rfl,
          fun _ => rfl⟩
    | ok v =>
      refine ⟨_, by simp [runFetcher, fetchAge, hcall, Chan.send, hc, hr, wgDone, hwg0]; rfl, ?_, ?_⟩
      · refine ⟨by simp; omega, hec, by simp; omega, fun hm => absurd hm hf,
          fun hm => hg (by simp [hm]), fun hm => hn (by simp [hm])⟩
      · exact ⟨by simp only; omega, Or.inl ⟨by simp [resultCount], rfl⟩, fun hne => absurd rfl hne,
          fun _ => rfl, fun _ => rfl⟩
  | gender =>
    obtain ⟨hc, hr⟩ := hg (by simp)
    cases hcall : fetchAPI src.gender with
    | error e =>
      refine ⟨_, by simp [runFetcher, fetchGender, hcall, Chan.send, hec, hroom, wgDone, hwg0]; rfl, ?_, ?_⟩
      · refine ⟨by simp; omega, rfl, by simp; omega, fun hm => ha (by simp [hm]),
          fun hm => absurd hm hf, fun hm => hn (by simp [hm])⟩
      · exact ⟨by simp only; omega, Or.inr ⟨rfl, _, rfl⟩, fun _ => rfl, fun _ => rfl,
          fun _ => rfl⟩
    | ok v =>
      refine ⟨_, by simp [runFetcher, fetchGender, hcall, Chan.send, hc, hr, wgDone, hwg0]; rfl, ?_, ?_⟩
      · refine ⟨by simp; omega, hec, by simp; omega, fun hm => ha (by simp [hm]),
          fun hm => absurd hm hf, fun hm => hn (by simp [hm])⟩
      · exact ⟨by simp only; omega, Or.inl ⟨by simp [resultCount], rfl⟩, fun _ => rfl,
          fun hne => absurd rfl hne, fun _ => rfl⟩
  | nationality =>
    obtain ⟨hc, hr⟩ := hn (by simp)
    cases hcall : fetchAPI src.nationality with
    | error e =>
      refine ⟨_, by simp [runFetcher, fetchNationality, hcall, Chan.send, hec, hroom, wgDone, hwg0]; rfl, ?_, ?_⟩
      · refine ⟨by simp; omega, rfl, by simp; omega, fun hm => ha (by simp [hm]),
          fun hm => hg (by simp [hm]), fun hm => absurd hm hf⟩
      · exact ⟨by simp only; omega, Or.inr ⟨rfl, _, rfl⟩, fun _ => rfl, fun _ => rfl,
          fun _ => rfl⟩
    | ok v =>
      by_cases hlen : v.Countries.length < 1
      · refine ⟨_, by simp [runFetcher, fetchNationality, hcall, hlen, Chan.send, hec, hroom, wgDone, hwg0]; rfl, ?_, ?_⟩
        · refine ⟨by simp; omega, rfl, by simp; omega, fun hm => ha (by simp [hm]),
            fun hm => hg (by simp [hm]), fun hm => absurd hm hf⟩
        · exact ⟨by simp only; omega, Or.inr ⟨rfl, _, rfl⟩, fun _ => rfl, fun _ => rfl,
            fun _ => rfl⟩
      · refine ⟨_, by simp [runFetcher, fetchNationality, hcall, hlen, Chan.send, hc, hr, wgDone, hwg0]; rfl, ?_, ?_⟩
        · refine ⟨by simp; omega, hec, by simp; omega, fun hm => ha (by simp [hm]),
            fun hm => hg (by simp [hm]), fun hm => absurd hm hf⟩
        · exact ⟨by simp only; omega, Or.inl ⟨by simp [resultCount], rfl⟩, fun _ => rfl,
            fun _ => rfl, fun hne => absurd rfl hne⟩

/-- A pending goroutine runs to completion and leaves the others pending. -/
theorem runFetcher_pending (src : Sources) (f : Fetcher) (fs : List Fetcher)
    (s : EnrichState) (hf : f ∉ fs) (h : Pending (f :: fs) s) :
    ∃ s', runFetcher src f s = some s' ∧ Pending fs s' := by
  obtain ⟨s', h1, h2, _⟩ := runFetcher_step src f fs s hf h
  exact ⟨s', h1, h2⟩

/-- Pending goroutines all run to completion, in any order without repetition. -/
theorem runFetchers_pending (src : Sources) :
    ∀ (fs : List Fetcher) (s : EnrichState), fs.Nodup → Pending fs s →
      ∃ s', runFetchers src fs s = some s' ∧ s'.wg = 0 := by
  intro fs
  induction fs with
  | nil => intro s _ h; exact ⟨s, rfl, h.1⟩
  | cons f fs ih =>
    intro s hnd h
    obtain ⟨s1, h1, hp1⟩ := runFetcher_pending src f fs s (List.nodup_cons.mp hnd).1 h
    obtain ⟨s2, h2, hw⟩ := ih s1 (List.nodup_cons.mp hnd).2 hp1
    exact ⟨s2, by simp [runFetchers, h1, h2], hw⟩

/-- Under every schedule the three goroutines are pending at the start of `Enrich`. -/
theorem pending_enrichInit (sched : Schedule) :
    sched.order.Nodup ∧ Pending sched.order enrichInit := by
  cases sched <;> exact ⟨by decide, by decide, rfl, by decide, by simp [enrichInit, Chan.make],
    by simp [enrichInit, Chan.make], by simp [enrichInit, Chan.make]⟩

/-- The failure return of `Enrich` is unreachable: whatever the three fetches did and in
whatever order, `Enrich` returns, with a nil error and the Person it was given.  After the
join the receive on the closed error channel gives either a queued error with
`opened = true` or `nil` with `opened = false`; the guard `err != nil && !opened` holds in
neither case. -/
theorem Enrich_never_returns_error (src : Sources) (sched : Schedule) (person : Person) :
    ∃ r, Enrich src sched person = some r ∧ r.err = none ∧ r.ret = some r.person := by
  obtain ⟨hnd, hp⟩ := pending_enrichInit sched
  obtain ⟨s, hs, hw⟩ := runFetchers_pending src _ _ hnd hp
  obtain ⟨wg, ⟨ab, ac, acl⟩, ⟨gb, gc, gcl⟩, ⟨nb, nc, ncl⟩, ⟨eb, ec, ecl⟩⟩ := s
  simp only at hw
  subst hw
  cases eb <;> cases ab <;> cases gb <;> cases nb <;>
    simp [Enrich, hs, Chan.close, Chan.recv]

/-- One send adds one queued value in all and at most one per channel. -/
theorem SentOnce.counts {f : Fetcher} {s s' : EnrichState} (h : SentOnce f s s') :
    totalSent s' = totalSent s + 1 ∧
    (∀ g, resultCount s' g ≤ resultCount s g + if g = f then 1 else 0) ∧
    s'.errChan.buf.length ≤ s.errChan.buf.length + 1 := by
  obtain ⟨_, hsend, ha, hg, hn⟩ := h
  have hlen : (resultCount s' f = resultCount s f + 1 ∧
        s'.errChan.buf.length = s.errChan.buf.length) ∨
      (resultCount s' f = resultCount s f ∧
        s'.errChan.buf.length = s.errChan.buf.length + 1) := by
    rcases hsend with ⟨h1, h2⟩ | ⟨h1, e, h2⟩
    · exact Or.inl ⟨h1, by rw [h2]⟩
    · exact Or.inr ⟨h1, by rw [h2]; simp⟩
  cases f <;> simp only [ne_eq, not_true_eq_false, not_false_eq_true, reduceCtorEq,
      false_implies, true_implies] at ha hg hn <;>
    refine ⟨?_, ?_, ?_⟩ <;>
    first
      | (intro g; cases g <;> simp [resultCount, *] at hlen ⊢; omega)
      | (simp [totalSent, resultCount, *] at hlen ⊢; omega)

/-- Pending goroutines all run to completion, each with exactly one send. -/
theorem runFetchers_counts (src : Sources) :
    ∀ (fs : List Fetcher) (s : EnrichState), fs.Nodup → Pending fs s →
      ∃ s', runFetchers src fs s = some s' ∧ s'.wg = 0 ∧
        totalSent s' = totalSent s + fs.length ∧
        (∀ g, resultCount s' g ≤ resultCount s g + if g ∈ fs then 1 else 0) ∧
        s'.errChan.buf.length ≤ s.errChan.buf.length + fs.length := by
  intro fs
  induction fs with
  | nil => intro s _ h; exact ⟨s, rfl, h.1, rfl, by simp, by simp⟩
  | cons f fs ih =>
    intro s hnd h
    have hf : f ∉ fs := (List.nodup_cons.mp hnd).1
    obtain ⟨s1, h1, hp1, hs1⟩ := runFetcher_step src f fs s hf h
    obtain ⟨s2, h2, hw, ht, hr, he⟩ := ih s1 (List.nodup_cons.mp hnd).2 hp1
    obtain ⟨ht1, hr1, he1⟩ := hs1.counts
    refine ⟨s2, by simp [runFetchers, h1, h2], hw, by simp only [List.length_cons]; omega,
      ?_, by simp only [List.length_cons]; omega⟩
    intro g
    have hg1 := hr1 g
    have hg2 := hr g
    by_cases hgf : g = f
    · subst hgf
      simp only [hf, if_false, if_true, List.mem_cons, true_or] at hg1 hg2 ⊢
      omega
    · by_cases hgm : g ∈ fs
      · simp only [hgf, hgm, if_false, if_true, List.mem_cons, or_true] at hg1 hg2 ⊢
        omega
      · simp only [hgf, hgm, if_false, List.mem_cons, or_self] at hg1 hg2 ⊢
        omega

/-- C1 (evaluation of the code at the failing input).  Claimed: when at least one fetch
reports a failure, `Enrich` returns a non-nil error and no Person.  In the example scenario
with the gender source answering HTTP 500, under every schedule, `Enrich` returns a nil
error together with the Person (Age 55, Gender empty, Nationality "UA"); and so it does on
every input: the guard `err != nil && !opened` after the receive on the closed error
channel never holds, because a queued error is received with `opened = true`. -/
theorem Enrich_gender_down_returns_nil_error (sched : Schedule) :
    Enrich genderDownSources sched oleg =
      some { ret := some { oleg with Age := 55, Gender := "", Nationality := "UA" }
             err := none
             person := { oleg with Age := 55, Gender := "", Nationality := "UA" } } ∧
    ∀ (src : Sources) (person : Person),
      ∃ r, Enrich src sched person = some r ∧ r.err = none ∧ r.ret = some r.person := by
  refine ⟨?_, fun src person => Enrich_never_returns_error src sched person⟩
  cases sched <;> rfl

/-- C2 (evaluation of the code at the failing input).  Claimed: when at least one fetch
fails, the fields of the Person after the call equal its fields before the call.  In the
example scenario with the nationality source answering an empty country list, under every
schedule, the Person given to `Enrich` has afterwards Age 55 and Gender "male" next to an
empty Nationality: it is partially enriched, and it is what the caller gets back. -/
theorem Enrich_no_country_partially_enriches (sched : Schedule) :
    ∃ r, Enrich noCountrySources sched oleg = some r ∧
      r.person ≠ oleg ∧
      r.person.Age = 55 ∧ r.person.Gender = "male" ∧ r.person.Nationality = "" ∧
      r.ret = some r.person ∧ r.err = none := by
  cases sched <;> exact ⟨_, rfl, by decide, rfl, rfl, rfl, rfl, rfl⟩

/-- C3.  For every input Person, every schedule and every triple of successful fetch
results (age `a`, gender `g`, non-empty country list `cs`), `Enrich` returns a nil error and
the Person with Age `a`, Gender `g` and Nationality the country code of the first entry of
`cs`; Name, Surname and Patronymic are those of the input. -/
theorem Enrich_all_sources_succeed (src : Sources) (sched : Schedule) (person : Person)
    (a : Int) (g : String) (cs : List countryEntity)
    (hage : fetchAPI src.age = .ok { Age := a })
    (hgender : fetchAPI src.gender = .ok { Gender := g })
    (hnat : fetchAPI src.nationality = .ok { Countries := cs })
    (hcs : cs ≠ []) :
    Enrich src sched person =
      some { ret := some { Name := person.Name, Surname := person.Surname
                           Patronymic := person.Patronymic
                           Age := a, Gender := g, Nationality := (cs.head hcs).CountryID }
             err := none
             person := { Name := person.Name, Surname := person.Surname
                         Patronymic := person.Patronymic
                         Age := a, Gender := g, Nationality := (cs.head hcs).CountryID } } := by
  obtain ⟨c, rest, rfl⟩ := List.exists_cons_of_ne_nil hcs
  cases sched <;>
    simp [Enrich, runFetchers, runFetcher, fetchAge, fetchGender, fetchNationality,
      Schedule.order, enrichInit, Chan.make, Chan.send, Chan.close, Chan.recv, wgDone,
      hage, hgender, hnat]

/-- C3 at the input of the example scenario and of `TestEnricher_Enrich`: Oleg Petrov
Ivanovich with age 55, gender "male" and countries UA, RU becomes Age 55, Gender "male",
Nationality "UA". -/
theorem Enrich_all_sources_succeed_witness :
    Enrich olegSources .genderNationalityAge oleg =
      some { ret := some { Name := "Oleg", Surname := "Petrov", Patronymic := "Ivanovich"
                           Age := 55, Gender := "male", Nationality := "UA" }
             err := none
             person := { Name := "Oleg", Surname := "Petrov", Patronymic := "Ivanovich"
                         Age := 55, Gender := "male", Nationality := "UA" } } :=
  Enrich_all_sources_succeed olegSources .genderNationalityAge oleg 55 "male"
    [⟨"UA", 9 / 10⟩, ⟨"RU", 1 / 20⟩] rfl rfl rfl (by simp)

/-- C4.  First element wins: when the nationality response decodes to a non-empty country
list, `fetchNationality` (run where its result channel has room and the join is still
waiting for it) sends the country code of the entry at position 0 on its result channel,
whatever the probabilities are, and leaves the error channel as it was. -/
theorem fetchNationality_first_element_wins (call : HttpOutcome NationalityResult)
    (first : countryEntity) (rest : List countryEntity) (s : EnrichState)
    (hcall : fetchAPI call = .ok { Countries := first :: rest })
    (hopen : s.nationalityResult.closed = false)
    (hroom : s.nationalityResult.buf.length < s.nationalityResult.cap)
    (hwg : s.wg ≠ 0) :
    ∃ s', fetchNationality call s = some s' ∧
      s'.nationalityResult.buf = s.nationalityResult.buf ++ [first.CountryID] ∧
      s'.errChan = s.errChan ∧
      s'.ageResult = s.ageResult ∧ s'.genderResult = s.genderResult ∧
      s'.wg + 1 = s.wg := by
  refine ⟨{ s with
      nationalityResult :=
        { s.nationalityResult with buf := s.nationalityResult.buf ++ [first.CountryID] }
      wg := s.wg - 1 }, ?_, rfl, rfl, rfl, rfl, ?_⟩
  · simp [fetchNationality, hcall, Chan.send, hopen, hroom, wgDone, hwg]
  · simp only; omega

/-- C4 on a response whose later entry has the strictly higher probability: the first
entry, UA with probability 1/20, wins over RU with probability 9/10. -/
theorem fetchNationality_first_element_wins_witness :
    ∃ s', fetchNationality
        (okSource { Countries := [⟨"UA", 1 / 20⟩, ⟨"RU", 9 / 10⟩] }) enrichInit = some s' ∧
      s'.nationalityResult.buf = [] ++ ["UA"] ∧
      s'.errChan = enrichInit.errChan ∧
      s'.ageResult = enrichInit.ageResult ∧ s'.genderResult = enrichInit.genderResult ∧
      s'.wg + 1 = 3 :=
  fetchNationality_first_element_wins
    (okSource { Countries := [⟨"UA", 1 / 20⟩, ⟨"RU", 9 / 10⟩] })
    ⟨"UA", 1 / 20⟩ [⟨"RU", 9 / 10⟩] enrichInit rfl rfl (by decide) (by decide)

/-- C5.  When the nationality response is received and decoded and its country list is
empty, `fetchNationality` (run where the error channel has room and the join is still
waiting for it) puts exactly one error on the error channel and sends nothing on its result
channel. -/
theorem fetchNationality_empty_list_fails (call : HttpOutcome NationalityResult)
    (s : EnrichState)
    (hcall : fetchAPI call = .ok { Countries := [] })
    (hopen : s.errChan.closed = false)
    (hroom : s.errChan.buf.length < s.errChan.cap)
    (hwg : s.wg ≠ 0) :
    ∃ s', fetchNationality call s = some s' ∧
      s'.errChan.buf =
        s.errChan.buf ++ [some "nationality API err: len of nationality less 1"] ∧
      s'.nationalityResult = s.nationalityResult ∧
      s'.ageResult = s.ageResult ∧ s'.genderResult = s.genderResult ∧
      s'.wg + 1 = s.wg := by
  refine ⟨{ s with
      errChan := { s.errChan with
        buf := s.errChan.buf ++ [some "nationality API err: len of nationality less 1"] }
      wg := s.wg - 1 }, ?_, rfl, rfl, rfl, rfl, ?_⟩
  · simp [fetchNationality, hcall, Chan.send, hopen, hroom, wgDone, hwg]
  · simp only; omega

/-- C5 at the start of an `Enrich` call: the empty country list puts one error on the empty
error channel and leaves the nationality channel empty. -/
theorem fetchNationality_empty_list_fails_witness :
    ∃ s', fetchNationality (okSource { Countries := [] }) enrichInit = some s' ∧
      s'.errChan.buf = [] ++ [some "nationality API err: len of nationality less 1"] ∧
      s'.nationalityResult = Chan.make 1 ∧
      s'.ageResult = enrichInit.ageResult ∧ s'.genderResult = enrichInit.genderResult ∧
      s'.wg + 1 = 3 :=
  fetchNationality_empty_list_fails (okSource { Countries := [] }) enrichInit
    rfl rfl (by decide) (by decide)

/-! ## Theorems: the query assembly -/

/-- The clauses and arguments `filter` collects are the numbered predicates and the values
of the counted fields, one value per counted field. -/
theorem filterVars_eq (o : Options) :
    (filterVars o).whereClauses = numberedPredicates o ∧
    (filterVars o).args = countedValues o ∧
    (countedValues o).length = (countedFields o).length := by
  obtain ⟨_ | n, _ | s, _ | p, _ | a, _ | mi, _ | ma, _ | g, _ | c⟩ := o <;>
    refine ⟨?_, ?_, ?_⟩ <;> rfl

/-- The clauses `filter` collects are the numbered predicates of the counted fields. -/
theorem filterVars_whereClauses (o : Options) :
    (filterVars o).whereClauses = numberedPredicates o :=
  (filterVars_eq o).1

/-- The arguments `filter` collects are the values of the counted fields. -/
theorem filterVars_args (o : Options) : (filterVars o).args = countedValues o :=
  (filterVars_eq o).2.1

/-- Every counted field holds a value. -/
theorem countedValues_length (o : Options) :
    (countedValues o).length = (countedFields o).length :=
  (filterVars_eq o).2.2

/-- No field counts exactly when no filter field is present. -/
theorem countedFields_eq_nil_iff (o : Options) : countedFields o = [] ↔ o = noFilter := by
  obtain ⟨_ | n, _ | s, _ | p, _ | a, _ | mi, _ | ma, _ | g, _ | c⟩ := o <;>
    constructor <;> intro h <;> first | rfl | cases h

/-- What `filter` does to a query is to append the WHERE clause to it. -/
theorem filter_eq_append (query : String) (o : Options) :
    filter query o = (query ++ whereClause o, whereArgs o) := by
  unfold whereClause whereArgs filter
  by_cases h : (filterVars o).whereClauses.length > 0
  · simp [h, String.ext_iff, String.data_append]
  · simp [h, String.ext_iff, String.data_append]

/-- Every clause is the predicate of a counted field. -/
theorem mem_numberedPredicates (o : Options) (clause : String)
    (h : clause ∈ numberedPredicates o) :
    ∃ f k, f ∈ countedFields o ∧ clause = f.predicate k := by
  simp only [numberedPredicates, List.mem_map] at h
  obtain ⟨p, hp, rfl⟩ := h
  exact ⟨p.2, p.1 + 1, (List.mem_enum hp).2 ▸ List.getElem_mem _, rfl⟩

/-- Only the min-age field has a predicate of the shape `age => $k`. -/
theorem predicate_ne_minAge (f : Field) (j k : Nat) (hf : f ≠ .minAge) :
    f.predicate j ≠ AgeColumn ++ " => $" ++ toString k := by
  cases f <;>
    first
      | exact absurd rfl hf
      | simp [Field.predicate, AgeColumn, NameColumn, SurnameColumn, PatronymicColumn,
          GenderColumn, NationalityColumn, String.ext_iff, String.data_append]

/-- Only the max-age field has a predicate of the shape `age <= $k`. -/
theorem predicate_ne_maxAge (f : Field) (j k : Nat) (hf : f ≠ .maxAge) :
    f.predicate j ≠ AgeColumn ++ " <= $" ++ toString k := by
  cases f <;>
    first
      | exact absurd rfl hf
      | simp [Field.predicate, AgeColumn, NameColumn, SurnameColumn, PatronymicColumn,
          GenderColumn, NationalityColumn, String.ext_iff, String.data_append]

/-- C6.  Exact age suppresses the age range: when Age is present, `filter` returns the same
query and arguments as for the same options with MinAge and MaxAge absent; the clauses end
with the exact-age predicate, bound to the last argument, which is the exact age; and no
clause is a min-age (`age => $k`) or max-age (`age <= $k`) predicate. -/
theorem filter_exact_age_suppresses_range (query : String) (o : Options) (a : Int)
    (h : o.Age = some a) :
    filter query o = filter query { o with MinAge := none, MaxAge := none } ∧
    (filterVars o).whereClauses.getLast? =
      some (AgeColumn ++ " = $" ++ toString (filterVars o).args.length) ∧
    (filterVars o).args.getLast? = some (.int a) ∧
    ∀ k : Nat, AgeColumn ++ " => $" ++ toString k ∉ (filterVars o).whereClauses ∧
      AgeColumn ++ " <= $" ++ toString k ∉ (filterVars o).whereClauses := by
  refine ⟨by simp [filter, filterVars, h], ?_, ?_, ?_⟩
  · obtain ⟨_ | n, _ | s, _ | p, _, mi, ma, _ | g, _ | c⟩ := o <;> cases h <;> rfl
  · obtain ⟨_ | n, _ | s, _ | p, _, mi, ma, _ | g, _ | c⟩ := o <;> cases h <;> rfl
  · intro k
    have hmin : Field.minAge ∉ countedFields o := by
      simp [countedFields, Field.all, Field.counted, h]
    have hmax : Field.maxAge ∉ countedFields o := by
      simp [countedFields, Field.all, Field.counted, h]
    rw [filterVars_whereClauses]
    constructor
    · intro hmem
      obtain ⟨f, j, hf, heq⟩ := mem_numberedPredicates o _ hmem
      exact predicate_ne_minAge f j k (fun hfm => hmin (hfm ▸ hf)) heq.symm
    · intro hmem
      obtain ⟨f, j, hf, heq⟩ := mem_numberedPredicates o _ hmem
      exact predicate_ne_maxAge f j k (fun hfm => hmax (hfm ▸ hf)) heq.symm

/-- C6 at a request that carries exact age 32 together with a range 10..35: only
`age = $1` is applied. -/
theorem filter_exact_age_suppresses_range_witness :
    filter "q" { noFilter with Age := some 32, MinAge := some 10, MaxAge := some 35 } =
      filter "q" { noFilter with Age := some 32, MinAge := none, MaxAge := none } ∧
    (filterVars { noFilter with Age := some 32, MinAge := some 10, MaxAge := some 35
      }).whereClauses.getLast? = some (AgeColumn ++ " = $" ++ toString 1) ∧
    (filterVars { noFilter with Age := some 32, MinAge := some 10, MaxAge := some 35
      }).args.getLast? = some (.int 32) ∧
    ∀ k : Nat,
      AgeColumn ++ " => $" ++ toString k ∉
        (filterVars { noFilter with Age := some 32, MinAge := some 10, MaxAge := some 35
          }).whereClauses ∧
      AgeColumn ++ " <= $" ++ toString k ∉
        (filterVars { noFilter with Age := some 32, MinAge := some 10, MaxAge := some 35
          }).whereClauses :=
  filter_exact_age_suppresses_range "q"
    { noFilter with Age := some 32, MinAge := some 10, MaxAge := some 35 } 32 rfl

/-- C7.  Predicate conjunction: when no filter field counts, `filter` returns the base query
unchanged with no argument, and that is the case exactly when no filter field is present;
otherwise it appends " WHERE " and then one predicate per
counted field (present, and for min and max age also exact age absent), joined by " AND ";
the arguments are the values of those fields in the order of their predicates. -/
theorem filter_is_conjunction_of_present_filters (query : String) (o : Options) :
    filter query o =
      (if countedFields o = [] then query
        else query ++ " WHERE " ++ " AND ".intercalate (numberedPredicates o),
       countedValues o) ∧
    (countedFields o = [] ↔ o = noFilter) ∧
    filter query noFilter = (query, []) ∧
    (numberedPredicates o).length = (countedFields o).length ∧
    (countedValues o).length = (countedFields o).length := by
  have hmain : filter query o =
      (if countedFields o = [] then query
        else query ++ " WHERE " ++ " AND ".intercalate (numberedPredicates o),
       countedValues o) := by
    have hlen : (numberedPredicates o).length = (countedFields o).length := by
      simp [numberedPredicates]
    unfold filter
    simp only [filterVars_whereClauses, filterVars_args, hlen]
    by_cases hc : countedFields o = []
    · simp [hc]
    · have : 0 < (countedFields o).length := List.length_pos.mpr hc
      simp [hc, this]
  exact ⟨hmain, countedFields_eq_nil_iff o, rfl, by simp [numberedPredicates],
    countedValues_length o⟩

/-- A decimal digit prints as a digit character. -/
theorem digitChar_isDigit (d : Nat) (h : d < 10) : (Nat.digitChar d).isDigit = true := by
  interval_cases d <;> rfl

/-- The characters `Nat.toDigitsCore` produces in base ten are digits. -/
theorem toDigitsCore_isDigit (fuel : Nat) :
    ∀ (n : Nat) (acc : List Char), (∀ c ∈ acc, c.isDigit = true) →
      ∀ c ∈ Nat.toDigitsCore 10 fuel n acc, c.isDigit = true := by
  induction fuel with
  | zero => intro n acc hacc c hc; exact hacc c (by simpa [Nat.toDigitsCore] using hc)
  | succ fuel ih =>
    intro n acc hacc c hc
    have hcons : ∀ x ∈ Nat.digitChar (n % 10) :: acc, x.isDigit = true := by
      intro x hx
      rcases List.mem_cons.mp hx with rfl | hx
      · exact digitChar_isDigit _ (Nat.mod_lt _ (by decide))
      · exact hacc x hx
    simp only [Nat.toDigitsCore] at hc
    split at hc
    · exact hcons c hc
    · exact ih _ _ hcons c hc

/-- A placeholder number prints as digits only. -/
theorem toString_nat_isDigit (n : Nat) : ∀ c ∈ (toString n).data, c.isDigit = true := by
  intro c hc
  have hc2 : c ∈ Nat.toDigits 10 n := by
    simpa [toString, Nat.repr, List.asString] using hc
  exact toDigitsCore_isDigit _ _ _ (by simp) c hc2

/-- A character of a joined text comes from the accumulator, the separator or a part. -/
theorem mem_intercalate_go_data (sep : String) (c : Char) :
    ∀ (l : List String) (acc : String), c ∈ (String.intercalate.go acc sep l).data →
      c ∈ acc.data ∨ c ∈ sep.data ∨ ∃ a ∈ l, c ∈ a.data := by
  intro l
  induction l with
  | nil => intro acc hc; exact Or.inl (by simpa [String.intercalate.go] using hc)
  | cons a l ih =>
    intro acc hc
    simp only [String.intercalate.go] at hc
    rcases ih _ hc with h | h | ⟨b, hb, h⟩
    · simp only [String.data_append, List.mem_append] at h
      rcases h with (h | h) | h
      · exact Or.inl h
      · exact Or.inr (Or.inl h)
      · exact Or.inr (Or.inr ⟨a, by simp, h⟩)
    · exact Or.inr (Or.inl h)
    · exact Or.inr (Or.inr ⟨b, by simp [hb], h⟩)

/-- A character of a joined text comes from the separator or from a part. -/
theorem mem_intercalate_data (sep : String) (l : List String) (c : Char)
    (hc : c ∈ (sep.intercalate l).data) : c ∈ sep.data ∨ ∃ a ∈ l, c ∈ a.data := by
  cases l with
  | nil => simp [String.intercalate] at hc
  | cons a l =>
    simp only [String.intercalate] at hc
    rcases mem_intercalate_go_data sep c l a hc with h | h | ⟨b, hb, h⟩
    · exact Or.inr ⟨a, by simp, h⟩
    · exact Or.inl h
    · exact Or.inr ⟨b, by simp [hb], h⟩

/-- The characters of a predicate: lower-case letters, digits, blanks and `=`, `<`, `>`,
`$`. -/
theorem mem_predicate_data (f : Field) (k : Nat) (c : Char)
    (hc : c ∈ (f.predicate k).data) :
    c.isDigit = true ∨ c.isLower = true ∨ c ∈ [' ', '=', '<', '>', '$'] := by
  have hd := toString_nat_isDigit k c
  cases f <;>
    simp only [Field.predicate, NameColumn, SurnameColumn, PatronymicColumn, GenderColumn,
      NationalityColumn, AgeColumn, String.data_append, List.mem_append] at hc <;>
    rcases hc with (hc | hc) | hc <;>
    first
      | exact Or.inl (hd hc)
      | (clear hd; right; revert c; decide)

/-- The characters of the WHERE clause `filter` appends. -/
theorem mem_whereClause_data (o : Options) (c : Char) (hc : c ∈ (whereClause o).data) :
    c.isDigit = true ∨ c.isLower = true ∨
      c ∈ [' ', '=', '<', '>', '$', 'W', 'H', 'E', 'R', 'A', 'N', 'D'] := by
  unfold whereClause filter at hc
  simp only [filterVars_whereClauses] at hc
  split at hc
  · simp only [String.data_append, List.mem_append] at hc
    rcases hc with (hc | hc) | hc
    · simp at hc
    · exact Or.inr (Or.inr
        ((by decide : ∀ x ∈ " WHERE ".data,
          x ∈ [' ', '=', '<', '>', '$', 'W', 'H', 'E', 'R', 'A', 'N', 'D']) c hc))
    · rcases mem_intercalate_data _ _ c hc with h | ⟨a, ha, h⟩
      · exact Or.inr (Or.inr
          ((by decide : ∀ x ∈ " AND ".data,
            x ∈ [' ', '=', '<', '>', '$', 'W', 'H', 'E', 'R', 'A', 'N', 'D']) c h))
      · simp only [numberedPredicates, List.mem_map] at ha
        obtain ⟨p, _, rfl⟩ := ha
        rcases mem_predicate_data _ _ c h with h | h | h
        · exact Or.inl h
        · exact Or.inr (Or.inl h)
        · exact Or.inr (Or.inr
            ((by decide : ∀ x ∈ [' ', '=', '<', '>', '$'],
              x ∈ [' ', '=', '<', '>', '$', 'W', 'H', 'E', 'R', 'A', 'N', 'D']) c h))
  · simp at hc

/-- The letters `F` and `I` do not occur in the WHERE clause. -/
theorem whereClause_no_F_no_I (o : Options) :
    'F' ∉ (whereClause o).data ∧ 'I' ∉ (whereClause o).data := by
  constructor
  · intro h
    rcases mem_whereClause_data o _ h with h | h | h
    · exact absurd h (by decide)
    · exact absurd h (by decide)
    · exact absurd h (by decide)
  · intro h
    rcases mem_whereClause_data o _ h with h | h | h
    · exact absurd h (by decide)
    · exact absurd h (by decide)
    · exact absurd h (by decide)

/-- C8.  The count query and the page query use the same predicate set: the statement
`countPeople` runs is `SELECT COUNT(*) FROM people` followed by the WHERE clause of the
options, with the arguments of that clause; the page statement of `FilteredPages` is its
SELECT followed by the same WHERE clause and then the OFFSET/LIMIT suffix, with the same
arguments followed by offset and limit; and neither `OFFSET` nor `LIMIT` occurs in the
count statement. -/
theorem count_and_page_use_same_predicates (offset limit : Int) (o : Options) :
    (FilteredPages offset limit o).count =
      ("SELECT COUNT(*) FROM " ++ PeopleTable ++ whereClause o, whereArgs o) ∧
    (FilteredPages offset limit o).page =
      (pageSelect ++ whereClause o ++
          (" OFFSET ($" ++ toString ((whereArgs o).length + 1) ++ ") LIMIT ($"
            ++ toString ((whereArgs o).length + 2) ++ ")"),
        whereArgs o ++ [.int offset, .int limit]) ∧
    (FilteredPages offset limit o).page.2 =
      (FilteredPages offset limit o).count.2 ++ [.int offset, .int limit] ∧
    ¬ occursIn "OFFSET" (FilteredPages offset limit o).count.1 ∧
    ¬ occursIn "LIMIT" (FilteredPages offset limit o).count.1 := by
  have hcount : (FilteredPages offset limit o).count =
      ("SELECT COUNT(*) FROM " ++ PeopleTable ++ whereClause o, whereArgs o) := by
    simp only [FilteredPages, countPeople]
    exact filter_eq_append _ o
  have hpage : (FilteredPages offset limit o).page =
      (pageSelect ++ whereClause o ++
          (" OFFSET ($" ++ toString ((whereArgs o).length + 1) ++ ") LIMIT ($"
            ++ toString ((whereArgs o).length + 2) ++ ")"),
        whereArgs o ++ [.int offset, .int limit]) := by
    simp only [FilteredPages, filter_eq_append pageSelect o]
  have hdata : (FilteredPages offset limit o).count.1.data =
      "SELECT COUNT(*) FROM people".data ++ (whereClause o).data := by
    rw [hcount]
    simp [PeopleTable, String.data_append]
  obtain ⟨hF, hI⟩ := whereClause_no_F_no_I o
  refine ⟨hcount, hpage, by rw [hcount, hpage], ?_, ?_⟩
  · intro h
    have hle := (List.IsInfix.sublist h).count_le 'F'
    rw [hdata, List.count_append, List.count_eq_zero_of_not_mem hF] at hle
    revert hle
    decide
  · intro h
    have hmem : 'I' ∈ (FilteredPages offset limit o).count.1.data :=
      (List.IsInfix.subset h) (by decide)
    rw [hdata, List.mem_append] at hmem
    rcases hmem with hmem | hmem
    · exact absurd hmem (by decide)
    · exact hI hmem

/-! ## Theorems: the list handler -/

/-- A value in the range of `int` is its own wrap-around. -/
theorem wrapInt_of_fits (x : Int) (h : -2 ^ 63 ≤ x ∧ x < 2 ^ 63) : wrapInt x = x := by
  simp only [wrapInt, intBits]
  omega

/-- C9 as claimed fails: on `?page=2&limit=9223372036854775807`, with the offset of page 2
and a store that reports 5 people, the listing succeeds with Offset and Limit both
9223372036854775807 and Next true, although offset + limit is not below the total 5: the
`int` sum of the handler wraps around to -2. -/
theorem list_next_true_when_sum_overflows :
    New pageOffset (fun _ _ _ => ([], 5, none))
        (pageLimitQuery "2" "9223372036854775807") =
      [.filteredPages 9223372036854775807 9223372036854775807 (some noFilter),
        .json StatusOK (.list []
          { Total := 5, Limit := 9223372036854775807, Offset := 9223372036854775807
            Next := true })] ∧
    ¬ ((9223372036854775807 : Int) + 9223372036854775807 < 5) ∧
    wrapInt (9223372036854775807 + 9223372036854775807) = -2 := by
  refine ⟨by rfl, by decide, by decide⟩

/-- C9 (amended).  A successful listing: when the page and limit parameters parse to `page`
and `limit` and the store, called with the offset `o` of that pagination and `limit`, reports
`total` without error, the handler ends with that one store call followed by a 200 response
whose meta has Total `total`, Limit `limit`, Offset `o` and Next true exactly when
`o + limit < total`, the sum being the `int` addition of the handler (the plain sum whenever
that fits in `int`); everything before the store call is a response. -/
theorem list_meta_of_successful_listing (Offset : Pagination → Int) (pager : Pager)
    (q : UrlQuery) (page limit total : Int) (users : List Person)
    (hpage : Atoi (DefaultQuery q "page" defaultPage) = some page)
    (hlimit : Atoi (DefaultQuery q "limit" defaultLimit) = some limit)
    (hstore : pager (Offset { Page := page, Limit := limit }) limit
      (setFilterQueries q).toOption = (users, total, none)) :
    ∃ (earlier : List Event) (m : Meta),
      New Offset pager q =
        earlier ++
          [.filteredPages (Offset { Page := page, Limit := limit }) limit
              (setFilterQueries q).toOption,
            .json StatusOK (.list users m)] ∧
      (∀ e ∈ earlier, ∃ code body, e = .json code body) ∧
      m.Total = total ∧ m.Limit = limit ∧
      m.Offset = Offset { Page := page, Limit := limit } ∧
      (m.Next = true ↔
        wrapInt (Offset { Page := page, Limit := limit } + limit) < total) ∧
      (-2 ^ 63 ≤ Offset { Page := page, Limit := limit } + limit ∧
          Offset { Page := page, Limit := limit } + limit < 2 ^ 63 →
        (m.Next = true ↔ Offset { Page := page, Limit := limit } + limit < total)) := by
  refine ⟨(match setFilterQueries q with
            | .error _ => [.json StatusBadRequest (.error "Invalid Parameters")]
            | .ok _ => []) ++
          (if DefaultQuery q "page" defaultPage = "0" then
            [.json StatusBadRequest (.text "page parameter can't be 0")] else []),
    { Total := total, Limit := limit, Offset := Offset { Page := page, Limit := limit }
      Next := decide (wrapInt (Offset { Page := page, Limit := limit } + limit) < total) },
    ?_, ?_, rfl, rfl, rfl, by simp, ?_⟩
  · unfold New
    cases hf : setFilterQueries q <;>
      simp only [hf, Except.toOption] at hstore <;>
      simp only [hf, hpage, hlimit, hstore, Except.toOption] <;>
      split_ifs <;> simp
  · intro e he
    cases hf : setFilterQueries q <;> by_cases h0 : DefaultQuery q "page" defaultPage = "0" <;>
      simp [hf, h0] at he <;> aesop
  · intro hfit
    rw [wrapInt_of_fits _ hfit]
    simp

/-- C9 (amended) on page 2 with the default limit 10, an offset method that skips the earlier
pages,
and a store that reports 25 people: the meta is Total 25, Limit 10, Offset 10, and Next is
true as 10 + 10 < 25. -/
theorem list_meta_of_successful_listing_witness :
    ∃ (earlier : List Event) (m : Meta),
      New (fun p => (p.Page - 1) * p.Limit) (fun _ _ _ => ([], 25, none))
          (singleParam "page" "2") =
        earlier ++ [.filteredPages 10 10 (some noFilter), .json StatusOK (.list [] m)] ∧
      (∀ e ∈ earlier, ∃ code body, e = .json code body) ∧
      m.Total = 25 ∧ m.Limit = 10 ∧ m.Offset = 10 ∧
      (m.Next = true ↔ wrapInt (10 + 10) < 25) ∧
      (-2 ^ 63 ≤ (10 : Int) + 10 ∧ (10 : Int) + 10 < 2 ^ 63 →
        (m.Next = true ↔ (10 : Int) + 10 < 25)) :=
  list_meta_of_successful_listing (fun p => (p.Page - 1) * p.Limit)
    (fun _ _ _ => ([], 25, none)) (singleParam "page" "2") 2 10 25 [] rfl rfl rfl

/-- C10 (evaluation of the code at the failing input).  Claimed: a page parameter that is
an integer less than or equal to 0 is answered with HTTP 400 as the only response and the
store is never called.  On `?page=0` the handler writes the 400 response, does not return,
calls `FilteredPages` and writes a second response (500 or 200); on `?page=-1` it writes no
400 response at all and calls `FilteredPages`. -/
theorem list_non_positive_page_reaches_store (Offset : Pagination → Int) (pager : Pager) :
    (∃ last,
      New Offset pager (singleParam "page" "0") =
        [.json StatusBadRequest (.text "page parameter can't be 0"),
          .filteredPages (Offset { Page := 0, Limit := 10 }) 10 (some noFilter), last] ∧
      (last = .json StatusInternalServerError (.error "Internal Server Error") ∨
        ∃ users m, last = .json StatusOK (.list users m))) ∧
    (∃ last,
      New Offset pager (singleParam "page" "-1") =
        [.filteredPages (Offset { Page := -1, Limit := 10 }) 10 (some noFilter), last] ∧
      (last = .json StatusInternalServerError (.error "Internal Server Error") ∨
        ∃ users m, last = .json StatusOK (.list users m))) := by
  have hf0 : setFilterQueries (singleParam "page" "0") = .ok noFilter := rfl
  have hf1 : setFilterQueries (singleParam "page" "-1") = .ok noFilter := rfl
  have hq0 : DefaultQuery (singleParam "page" "0") "page" defaultPage = "0" := rfl
  have hq1 : DefaultQuery (singleParam "page" "-1") "page" defaultPage = "-1" := rfl
  have hl0 : DefaultQuery (singleParam "page" "0") "limit" defaultLimit = "10" := rfl
  have hl1 : DefaultQuery (singleParam "page" "-1") "limit" defaultLimit = "10" := rfl
  have ha0 : Atoi "0" = some 0 := rfl
  have ha1 : Atoi "-1" = some (-1) := rfl
  have ha10 : Atoi "10" = some 10 := rfl
  have hne : ¬ ("-1" = "0") := by decide
  constructor
  · unfold New
    simp only [hf0, hq0, hl0, ha0, ha10, if_true]
    rcases hs : pager (Offset { Page := 0, Limit := 10 }) 10 (some noFilter) with
      ⟨users, count, _ | err⟩
    · exact ⟨_, rfl, Or.inr ⟨_, _, rfl⟩⟩
    · exact ⟨_, rfl, Or.inl rfl⟩
  · unfold New
    simp only [hf1, hq1, hl1, ha1, ha10, hne, if_false]
    rcases hs : pager (Offset { Page := -1, Limit := 10 }) 10 (some noFilter) with
      ⟨users, count, _ | err⟩
    · exact ⟨_, rfl, Or.inr ⟨_, _, rfl⟩⟩
    · exact ⟨_, rfl, Or.inl rfl⟩

/-! ## Theorems: validation in the handlers -/

/-- C11 (evaluation of the code at the failing input).  Claimed: when `setFilterQueries`
fails with `ErrConvertParam`, the handler answers 400 as its only response and never calls
`FilteredPages`.  On `?age=abc` the handler writes the 400 response, does not return, calls
`FilteredPages` with offset of page 1, limit 10 and a nil `Options`, and writes a second
response (500 or 200). -/
theorem list_unparsable_age_reaches_store (Offset : Pagination → Int) (pager : Pager) :
    setFilterQueries (singleParam "age" "abc") =
      .error (ErrConvertParam ++ ":" ++ "abc") ∧
    ∃ last,
      New Offset pager (singleParam "age" "abc") =
        [.json StatusBadRequest (.error "Invalid Parameters"),
          .filteredPages (Offset { Page := 1, Limit := 10 }) 10 none, last] ∧
      (last = .json StatusInternalServerError (.error "Internal Server Error") ∨
        ∃ users m, last = .json StatusOK (.list users m)) := by
  have hf : setFilterQueries (singleParam "age" "abc") =
      .error (ErrConvertParam ++ ":" ++ "abc") := rfl
  have hq : DefaultQuery (singleParam "age" "abc") "page" defaultPage = "1" := rfl
  have hl : DefaultQuery (singleParam "age" "abc") "limit" defaultLimit = "10" := rfl
  have ha1 : Atoi "1" = some 1 := rfl
  have ha10 : Atoi "10" = some 10 := rfl
  have hne : ¬ ("1" = "0") := by decide
  refine ⟨hf, ?_⟩
  unfold New
  simp only [hf, hq, hl, ha1, ha10, hne, if_false]
  rcases hs : pager (Offset { Page := 1, Limit := 10 }) 10 none with
    ⟨users, count, _ | err⟩
  · exact ⟨_, rfl, Or.inr ⟨_, _, rfl⟩⟩
  · exact ⟨_, rfl, Or.inl rfl⟩


/-- Nothing to parse: `strconv.Atoi` fails on the empty string. -/
theorem Atoi_empty : Atoi "" = none := rfl

/-- C12 (evaluation of the code at the failing input).  Claimed: with no age parameter, a
minAge parameter that is the decimal text of an integer `n` (and optionally a maxAge
parameter) gives no error and Options with MinAge `n`.  For every non-empty minAge value
`setFilterQueries` returns the `ErrConvertParam` error, whatever maxAge is: the minAge
branch hands the value of the age parameter, empty at that point, to `strconv.Atoi`.  So it
does on `?minAge=10&maxAge=35`. -/
theorem setFilterQueries_minAge_always_fails (c : Char) (cs : List Char)
    (maxAge : Option String) :
    setFilterQueries (ageRangeQuery (String.mk (c :: cs)) maxAge) =
      .error (ErrConvertParam ++ ":" ++ String.mk (c :: cs)) ∧
    setFilterQueries (ageRangeQuery "10" (some "35")) =
      .error "can't convernt int query parameter:10" := by
  refine ⟨?_, rfl⟩
  have hv : String.mk (c :: cs) ≠ "" := by
    simp [String.ext_iff]
  have h1 : Query (ageRangeQuery (String.mk (c :: cs)) maxAge) "name" = "" := rfl
  have h2 : Query (ageRangeQuery (String.mk (c :: cs)) maxAge) "surname" = "" := rfl
  have h3 : Query (ageRangeQuery (String.mk (c :: cs)) maxAge) "patronymic" = "" := rfl
  have h4 : Query (ageRangeQuery (String.mk (c :: cs)) maxAge) "gender" = "" := rfl
  have h5 : Query (ageRangeQuery (String.mk (c :: cs)) maxAge) "nationality" = "" := rfl
  have h6 : Query (ageRangeQuery (String.mk (c :: cs)) maxAge) "age" = "" := rfl
  have h7 : Query (ageRangeQuery (String.mk (c :: cs)) maxAge) "minAge" =
      String.mk (c :: cs) := rfl
  simp [setFilterQueries, h1, h2, h3, h4, h5, h6, h7, hv, Atoi_empty]
  rfl

/-- C13.  An update needs at least one field: `Validate` returns an error exactly when all
six optional fields are absent; a name present with the empty string, or an age present
with 0, counts as present and makes `Validate` succeed. -/
theorem Validate_fails_iff_no_field (r : update.Request) :
    (r.Validate ≠ none ↔
      r.Name = none ∧ r.Surname = none ∧ r.Patronymic = none ∧
        r.Age = none ∧ r.Gender = none ∧ r.Nationality = none) ∧
    (r.Validate ≠ none ↔ r = update.noFields) ∧
    update.Request.Validate { update.noFields with Name := some "" } = none ∧
    update.Request.Validate { update.noFields with Age := some 0 } = none ∧
    update.Request.Validate update.noFields = some "at least one field must be provided" := by
  refine ⟨?_, ?_, rfl, rfl, rfl⟩
  · unfold update.Request.Validate
    split <;> simp_all
  · obtain ⟨n, s, p, a, g, c⟩ := r
    unfold update.Request.Validate update.noFields
    split <;> simp_all

/-- C14 (evaluation of the code at the failing input).  Claimed: when `Delete` returns
`ErrIDNotFound`, the delete handler emits exactly one response, 204, and no 500.  On id 42
with a store that answers `ErrIDNotFound` the handler writes the 204 response, does not
return, and writes the 500 response after it. -/
theorem delete_not_found_also_answers_500 :
    deleteHandler.New (fun _ => some .ErrIDNotFound) "42" =
      [.delete 42, .json StatusNoContent .null,
        .json StatusInternalServerError (.Error "Internal server error")] := by
  rfl

/-- C16 (evaluation of the code at the failing input).  Claimed: when executing the UPDATE
statement returns an error, `Update` returns a non-nil error and the update handler answers
with a server fault.  When `Exec` fails with an error other than `pgx.ErrNoRows` and the
commit succeeds, `Update` returns nil, and the update handler, given that store, answers
200 with the person. -/
theorem Update_drops_exec_error (msg : String) :
    Update none (some (.other msg)) none = none ∧
    update.New (fun _ => true) (fun _ => .ok oleg)
        (fun _ _ => Update none (some (.other msg)) none) "5"
        (.ok { update.noFields with Name := some "Ivan" }) =
      [.findByID 5, .update { oleg with Name := "Ivan" } 5,
        .json StatusOK (.updated { oleg with Name := "Ivan" })] := by
  exact ⟨rfl, rfl⟩

/-! ## Theorems: the join -/

/-- C17.  The join cannot block on its channels.  A goroutine that is still pending (`f`,
with the goroutines `fs` still to run after it) runs to completion whatever its HTTP call
gave, performs exactly one send (its result on its own channel or one error on the error
channel, never both, never none) and signals completion once.  Hence, under every schedule,
the three goroutines started by `Enrich` all complete: the `WaitGroup` counter reaches zero,
three values were sent in all, each result channel holds at most 1 and the error channel at
most 3; and `Enrich` itself returns: none of its receives after the join blocks. -/
theorem join_cannot_block (src : Sources) (sched : Schedule) (person : Person)
    (f : Fetcher) (fs : List Fetcher) (s : EnrichState)
    (hf : f ∉ fs) (hpending : Pending (f :: fs) s) :
    (∃ s', runFetcher src f s = some s' ∧ Pending fs s' ∧ SentOnce f s s') ∧
    (sched.order.Nodup ∧ Pending sched.order enrichInit) ∧
    (∃ s', runFetchers src sched.order enrichInit = some s' ∧ s'.wg = 0 ∧
      totalSent s' = 3 ∧
      s'.ageResult.buf.length ≤ enrichInit.ageResult.cap ∧
      s'.genderResult.buf.length ≤ enrichInit.genderResult.cap ∧
      s'.nationalityResult.buf.length ≤ enrichInit.nationalityResult.cap ∧
      s'.errChan.buf.length ≤ enrichInit.errChan.cap) ∧
    (enrichInit.ageResult.cap = 1 ∧ enrichInit.genderResult.cap = 1 ∧
      enrichInit.nationalityResult.cap = 1 ∧ enrichInit.errChan.cap = 3) ∧
    (∃ r, Enrich src sched person = some r) := by
  refine ⟨runFetcher_step src f fs s hf hpending, pending_enrichInit sched, ?_,
    ⟨rfl, rfl, rfl, rfl⟩, ?_⟩
  · obtain ⟨hnd, hp⟩ := pending_enrichInit sched
    obtain ⟨s', hrun, hw, ht, hr, he⟩ := runFetchers_counts src _ _ hnd hp
    have hlen : sched.order.length = 3 := by cases sched <;> rfl
    have h0 : totalSent enrichInit = 0 := rfl
    have ha := hr .age
    have hg := hr .gender
    have hn := hr .nationality
    have hma : Fetcher.age ∈ sched.order := by cases sched <;> decide
    have hmg : Fetcher.gender ∈ sched.order := by cases sched <;> decide
    have hmn : Fetcher.nationality ∈ sched.order := by cases sched <;> decide
    simp only [hma, hmg, hmn, if_true] at ha hg hn
    have hra : resultCount enrichInit .age = 0 := rfl
    have hrg : resultCount enrichInit .gender = 0 := rfl
    have hrn : resultCount enrichInit .nationality = 0 := rfl
    have hre : enrichInit.errChan.buf.length = 0 := rfl
    have hca : enrichInit.ageResult.cap = 1 := rfl
    have hcg : enrichInit.genderResult.cap = 1 := rfl
    have hcn : enrichInit.nationalityResult.cap = 1 := rfl
    have hce : enrichInit.errChan.cap = 3 := rfl
    rw [hra] at ha
    rw [hrg] at hg
    rw [hrn] at hn
    refine ⟨s', hrun, hw, by omega, ?_, ?_, ?_, by omega⟩
    · simp only [resultCount] at ha; omega
    · simp only [resultCount] at hg; omega
    · simp only [resultCount] at hn; omega
  · obtain ⟨r, hr, _⟩ := Enrich_never_returns_error src sched person
    exact ⟨r, hr⟩

/-- C17 at the start of an `Enrich` call of the example scenario with the gender source
answering HTTP 500: the gender goroutine, run first, puts its one error on the error channel
and nothing on its result channel, and the join completes. -/
theorem join_cannot_block_witness :
    (∃ s', runFetcher genderDownSources .gender enrichInit = some s' ∧
      Pending [.age, .nationality] s' ∧ SentOnce .gender enrichInit s') ∧
    (Schedule.genderAgeNationality.order.Nodup ∧
      Pending Schedule.genderAgeNationality.order enrichInit) ∧
    (∃ s', runFetchers genderDownSources Schedule.genderAgeNationality.order enrichInit =
        some s' ∧ s'.wg = 0 ∧
      totalSent s' = 3 ∧
      s'.ageResult.buf.length ≤ enrichInit.ageResult.cap ∧
      s'.genderResult.buf.length ≤ enrichInit.genderResult.cap ∧
      s'.nationalityResult.buf.length ≤ enrichInit.nationalityResult.cap ∧
      s'.errChan.buf.length ≤ enrichInit.errChan.cap) ∧
    (enrichInit.ageResult.cap = 1 ∧ enrichInit.genderResult.cap = 1 ∧
      enrichInit.nationalityResult.cap = 1 ∧ enrichInit.errChan.cap = 3) ∧
    (∃ r, Enrich genderDownSources .genderAgeNationality oleg = some r) :=
  join_cannot_block genderDownSources .genderAgeNationality oleg .gender
    [.age, .nationality] enrichInit (by decide)
    (pending_enrichInit .genderAgeNationality).2

/-! ## Theorems: the age range predicates -/

/-- No field has a predicate of the shape `age >= $k`. -/
theorem predicate_ne_ge (f : Field) (j k : Nat) :
    f.predicate j ≠ AgeColumn ++ " >= $" ++ toString k := by
  cases f <;>
    simp [Field.predicate, AgeColumn, NameColumn, SurnameColumn, PatronymicColumn,
      GenderColumn, NationalityColumn, String.ext_iff, String.data_append]

/-- C18 (evaluation of the code at the failing input).  Claimed: for MinAge, with Age
absent, `filter` emits the predicate `age >= $k`, the mirror image of `age <= $k` for
MaxAge.  For MinAge alone `filter` appends ` WHERE age => $1`, with the two characters of
the operator swapped, while for MaxAge alone it appends ` WHERE age <= $1`; and whatever
the options, `age >= $k` is never among the clauses `filter` collects. -/
theorem filter_min_age_operator_is_swapped (query : String) (n : Int) :
    filter query { noFilter with MinAge := some n } =
      (query ++ " WHERE " ++ "age => $1", [.int n]) ∧
    filter query { noFilter with MaxAge := some n } =
      (query ++ " WHERE " ++ "age <= $1", [.int n]) ∧
    "age => $1" ≠ "age >= $1" ∧
    ∀ (o : Options) (k : Nat),
      AgeColumn ++ " >= $" ++ toString k ∉ (filterVars o).whereClauses := by
  have hmin : " AND ".intercalate [AgeColumn ++ " => $" ++ toString 1] = "age => $1" := by
    decide
  have hmax : " AND ".intercalate [AgeColumn ++ " <= $" ++ toString 1] = "age <= $1" := by
    decide
  refine ⟨by rw [← hmin]; rfl, by rw [← hmax]; rfl, by decide, ?_⟩
  intro o k hmem
  rw [filterVars_whereClauses] at hmem
  obtain ⟨f, j, _, heq⟩ := mem_numberedPredicates o _ hmem
  exact predicate_ne_ge f j k heq.symm

/-! ## Theorems: placeholders and arguments -/

/-- The value of the digit character of a decimal digit. -/
theorem digitValue_digitChar (d : Nat) (h : d < 10) :
    digitValue (Nat.digitChar d) = some d := by
  interval_cases d <;> rfl

/-- Digits pushed in front of an accumulator can be pushed in front of nothing. -/
theorem toDigitsCore_append (fuel : Nat) :
    ∀ (n : Nat) (acc : List Char),
      Nat.toDigitsCore 10 fuel n acc = Nat.toDigitsCore 10 fuel n [] ++ acc := by
  induction fuel with
  | zero => intro n acc; simp [Nat.toDigitsCore]
  | succ fuel ih =>
    intro n acc
    simp only [Nat.toDigitsCore]
    split
    · simp
    · rw [ih _ (_ :: acc), ih _ [_]]
      simp

/-- Scanning the decimal text of `n` while a number is being read reads `n` after it. -/
theorem scan_toDigitsCore (fuel : Nat) :
    ∀ (n : Nat) (found : List Nat), n < fuel →
      (Nat.toDigitsCore 10 fuel n []).foldl scanStep { current := some 0, found := found } =
        { current := some n, found := found } := by
  induction fuel with
  | zero => intro n found h; omega
  | succ fuel ih =>
    intro n found h
    simp only [Nat.toDigitsCore]
    split
    · rename_i h0
      have hn : n < 10 := by omega
      have hmod : n % 10 = n := Nat.mod_eq_of_lt hn
      have hne : Nat.digitChar n ≠ '$' := by interval_cases n <;> decide
      simp [scanStep, hmod, hne, digitValue_digitChar n hn]
    · rename_i h0
      have hlt : n / 10 < fuel := by omega
      have hne : Nat.digitChar (n % 10) ≠ '$' := by
        have : n % 10 < 10 := Nat.mod_lt _ (by decide)
        generalize n % 10 = d at this
        interval_cases d <;> decide
      rw [toDigitsCore_append, List.foldl_append, ih _ _ hlt]
      simp only [List.foldl_cons, List.foldl_nil, scanStep, hne, if_false,
        digitValue_digitChar _ (Nat.mod_lt n (by decide : 10 > 0))]
      congr 2
      omega

/-- Scanning a placeholder number right after its `$` reads that number. -/
theorem scan_toString (k : Nat) (found : List Nat) :
    (toString k).data.foldl scanStep { current := some 0, found := found } =
      { current := some k, found := found } := by
  have h := scan_toDigitsCore (k + 1) k found (by omega)
  simpa [toString, Nat.repr, Nat.toDigits, List.asString] using h

/-- Text without `$`, scanned while no number is being read, changes nothing. -/
theorem scan_plain (t : List Char) (found : List Nat) (h : '$' ∉ t) :
    t.foldl scanStep { current := none, found := found } =
      { current := none, found := found } := by
  induction t with
  | nil => rfl
  | cons c t ih =>
    have hc : c ≠ '$' := fun hc => h (by simp [hc])
    have ht : '$' ∉ t := fun hm => h (by simp [hm])
    simp only [List.foldl_cons]
    have hstep : scanStep { current := none, found := found } c =
        { current := none, found := found } := by
      simp [scanStep, hc, ScanState.flush]
    rw [hstep]
    exact ih ht

/-- Text without `$` that starts with a character that is no digit ends the number being
read. -/
theorem scan_plain_cons (c : Char) (t : List Char) (st : ScanState)
    (hc : c ≠ '$') (hd : digitValue c = none) (h : '$' ∉ t) :
    (c :: t).foldl scanStep st = { current := none, found := st.flush } := by
  simp only [List.foldl_cons]
  have hstep : scanStep st c = { current := none, found := st.flush } := by
    simp only [scanStep, hc, if_false, hd]
    split <;> simp_all
  rw [hstep]
  exact scan_plain t _ h

/-- A predicate is its head followed by its placeholder number. -/
theorem predicate_data (f : Field) (k : Nat) :
    (f.predicate k).data = f.head.data ++ (toString k).data := by
  cases f <;> simp [Field.predicate, Field.head, String.data_append]

/-- The head of a predicate ends with its only `$`. -/
theorem head_data (f : Field) :
    ∃ body, f.head.data = body ++ ['$'] ∧ '$' ∉ body := by
  refine ⟨f.head.data.dropLast, ?_, ?_⟩ <;> cases f <;> decide

/-- Scanning a text without `$`, then `$` and a number, reads that number, after ending
the number that was being read before when the text starts with a character that is no
digit. -/
theorem scan_placeholder (pre : List Char) (k : Nat) (st : ScanState)
    (hpre : '$' ∉ pre)
    (hstart : st.current = none ∨ ∃ c t, pre = c :: t ∧ digitValue c = none) :
    (pre ++ '$' :: (toString k).data).foldl scanStep st =
      { current := some k, found := st.flush } := by
  have hplain : pre.foldl scanStep st = { current := none, found := st.flush } := by
    rcases hstart with hnone | ⟨c, t, rfl, hd⟩
    · obtain ⟨cur, found⟩ := st
      simp only at hnone
      subst hnone
      exact scan_plain _ _ hpre
    · have hc : c ≠ '$' := fun hc => hpre (by simp [hc])
      have ht : '$' ∉ t := fun hm => hpre (by simp [hm])
      exact scan_plain_cons c t st hc hd ht
  rw [List.foldl_append, hplain, List.foldl_cons]
  have hdollar : scanStep { current := none, found := st.flush } '$' =
      { current := some 0, found := st.flush } := by
    simp [scanStep, ScanState.flush]
  rw [hdollar, scan_toString]

/-- Scanning a separator and a predicate reads the placeholder number of the predicate. -/
theorem scan_predicate (sep : List Char) (f : Field) (k : Nat) (st : ScanState)
    (hsep : '$' ∉ sep)
    (hstart : st.current = none ∨ ∃ c t, sep = c :: t ∧ digitValue c = none) :
    (sep ++ (f.predicate k).data).foldl scanStep st =
      { current := some k, found := st.flush } := by
  obtain ⟨body, hbody, hno⟩ := head_data f
  rw [predicate_data, hbody]
  have hsplit : sep ++ (body ++ ['$'] ++ (toString k).data) =
      (sep ++ body) ++ '$' :: (toString k).data := by simp
  rw [hsplit]
  apply scan_placeholder
  · simp [hsep, hno]
  · rcases hstart with hnone | ⟨c, t, rfl, hd⟩
    · exact Or.inl hnone
    · exact Or.inr ⟨c, t ++ body, by simp, hd⟩

/-- Numbering with `enum` is numbering from 0. -/
theorem numberedPredicates_eq_numberFrom (o : Options) :
    numberedPredicates o = numberFrom 0 (countedFields o) := by
  have h : ∀ (fs : List Field) (m : Nat),
      (fs.enumFrom m).map (fun p => p.2.predicate (p.1 + 1)) = numberFrom m fs := by
    intro fs
    induction fs with
    | nil => intro m; rfl
    | cons f fs ih => intro m; simp [numberFrom, ih]
  exact h _ 0

/-- The characters of a joined text: the accumulator, then every part after a separator. -/
theorem intercalate_go_data (sep : String) :
    ∀ (l : List String) (acc : String),
      (String.intercalate.go acc sep l).data =
        acc.data ++ (l.flatMap fun b => sep.data ++ b.data) := by
  intro l
  induction l with
  | nil => intro acc; simp [String.intercalate.go]
  | cons a l ih =>
    intro acc
    simp [String.intercalate.go, ih, String.data_append]

/-- Scanning the predicates after the first one, each after its " AND ". -/
theorem scan_tail (fs : List Field) :
    ∀ (m : Nat) (found : List Nat),
      ((numberFrom m fs).flatMap fun b => " AND ".data ++ b.data).foldl scanStep
          { current := some m, found := found } =
        { current := some (m + fs.length), found := found ++ List.range' m fs.length } := by
  induction fs with
  | nil => intro m found; simp [numberFrom]
  | cons f fs ih =>
    intro m found
    rw [numberFrom, List.flatMap_cons, List.foldl_append,
      scan_predicate " AND ".data f (m + 1) _ (by decide)
        (Or.inr ⟨' ', "AND ".data, by decide, by decide⟩)]
    simp only [ScanState.flush]
    rw [ih]
    simp only [List.length_cons, List.range'_succ, List.append_assoc, List.singleton_append]
    congr 2
    omega

/-- At the end of `n` predicates the placeholders are `$1` to `$n`. -/
theorem scanAfter_flush (n : Nat) : (scanAfter n).flush = List.range' 1 n := by
  cases n with
  | zero => rfl
  | succ k => simp [scanAfter, ScanState.flush, List.range'_concat, Nat.add_comm]

/-- The characters of the WHERE clause: nothing when no field counts, else " WHERE ", the
first predicate, and every further predicate after an " AND ". -/
theorem whereClause_data (o : Options) :
    (whereClause o).data =
      match countedFields o with
      | [] => []
      | f :: fs =>
        " WHERE ".data ++ (f.predicate 1).data ++
          (numberFrom 1 fs).flatMap fun b => " AND ".data ++ b.data := by
  unfold whereClause filter
  simp only [filterVars_whereClauses, numberedPredicates_eq_numberFrom]
  cases countedFields o with
  | nil => simp [numberFrom]
  | cons f fs =>
    simp [numberFrom, String.intercalate, intercalate_go_data, String.data_append]

/-- Scanning a query without `$` followed by the WHERE clause of the options. -/
theorem scan_whereClause (pre : List Char) (hpre : '$' ∉ pre) (o : Options) :
    (pre ++ (whereClause o).data).foldl scanStep { current := none, found := [] } =
      scanAfter (countedFields o).length := by
  rw [whereClause_data]
  cases countedFields o with
  | nil => simp [scanAfter, scan_plain pre [] hpre]
  | cons f fs =>
    have hsplit : pre ++ (" WHERE ".data ++ (f.predicate 1).data ++
        (numberFrom 1 fs).flatMap fun b => " AND ".data ++ b.data) =
        ((pre ++ " WHERE ".data) ++ (f.predicate 1).data) ++
          (numberFrom 1 fs).flatMap fun b => " AND ".data ++ b.data := by
      simp
    simp only []
    rw [hsplit, List.foldl_append,
      scan_predicate (pre ++ " WHERE ".data) f 1 _
        (by simp only [List.mem_append, not_or]; exact ⟨hpre, by decide⟩) (Or.inl rfl),
      scan_tail]
    simp [scanAfter, ScanState.flush, Nat.add_comm]

/-- A predicate holds exactly one placeholder, its own. -/
theorem placeholders_predicate (f : Field) (k : Nat) :
    placeholders (f.predicate k) = [k] := by
  have h := scan_predicate [] f k { current := none, found := [] } (by simp) (Or.inl rfl)
  simp only [List.nil_append] at h
  simp [placeholders, h, ScanState.flush]

/-- The values of the counted fields are the values these fields hold. -/
theorem countedValues_map_some (o : Options) :
    (countedValues o).map some = (countedFields o).map (Field.value o) := by
  have hval : ∀ f ∈ countedFields o, (f.value o).isSome = true := by
    intro f hf
    have hc : Field.counted o f = true := (List.mem_filter.mp hf).2
    cases f <;> simp_all [Field.counted, Field.value]
  unfold countedValues
  generalize countedFields o = fs at hval
  induction fs with
  | nil => rfl
  | cons f fs ih =>
    have hf := hval f (by simp)
    obtain ⟨v, hv⟩ := Option.isSome_iff_exists.mp hf
    have ih2 := ih (fun g hg => hval g (by simp [hg]))
    simp [List.filterMap_cons, hv, ih2]

/-- The i-th clause is the predicate of the i-th counted field with placeholder `i + 1`,
and the i-th argument is the value of that field (positions counted from 0). -/
theorem clause_and_argument_at (o : Options) (i : Nat) (f : Field)
    (hf : (countedFields o)[i]? = some f) :
    (filterVars o).whereClauses[i]? = some (f.predicate (i + 1)) ∧
    ((filterVars o).args[i]?).map some = some (f.value o) := by
  constructor
  · rw [filterVars_whereClauses, numberedPredicates, List.getElem?_map, List.getElem?_enum, hf]
    rfl
  · rw [filterVars_args, ← List.getElem?_map, countedValues_map_some, List.getElem?_map, hf]
    rfl

/-- C19.  Placeholders and arguments stay aligned.  With `n` the number of arguments
`filter` returns: the placeholders of its WHERE clause are `$1`, ..., `$n`, each once, in
this order; there are `n` clauses, the i-th being the predicate of the i-th counted field,
holding the one placeholder `$i` and bound to the i-th argument, the value of that field;
the page statement of `FilteredPages` is its SELECT, this WHERE clause and
` OFFSET ($n+1) LIMIT ($n+2)`, its placeholders are `$1`, ..., `$n+2` in this order, and its
`n + 2` arguments are those of `filter` followed by offset and limit. -/
theorem placeholders_and_arguments_aligned (offset limit : Int) (o : Options) :
    placeholders (whereClause o) = List.range' 1 (whereArgs o).length ∧
    (filterVars o).whereClauses.length = (whereArgs o).length ∧
    (filterVars o).args = whereArgs o ∧
    (∀ (i : Nat) (f : Field), (countedFields o)[i]? = some f →
      (filterVars o).whereClauses[i]? = some (f.predicate (i + 1)) ∧
      placeholders (f.predicate (i + 1)) = [i + 1] ∧
      ((whereArgs o)[i]?).map some = some (f.value o)) ∧
    (FilteredPages offset limit o).page.1 =
      pageSelect ++ whereClause o ++
        (" OFFSET ($" ++ toString ((whereArgs o).length + 1) ++ ") LIMIT ($"
          ++ toString ((whereArgs o).length + 2) ++ ")") ∧
    placeholders (FilteredPages offset limit o).page.1 =
      List.range' 1 ((whereArgs o).length + 2) ∧
    (FilteredPages offset limit o).page.2 = whereArgs o ++ [.int offset, .int limit] ∧
    (FilteredPages offset limit o).page.2.length = (whereArgs o).length + 2 := by
  have hargs : (filterVars o).args = whereArgs o := rfl
  have hn : (whereArgs o).length = (countedFields o).length := by
    rw [← hargs, filterVars_args, countedValues_length]
  have hpage : (FilteredPages offset limit o).page =
      (pageSelect ++ whereClause o ++
          (" OFFSET ($" ++ toString ((whereArgs o).length + 1) ++ ") LIMIT ($"
            ++ toString ((whereArgs o).length + 2) ++ ")"),
        whereArgs o ++ [.int offset, .int limit]) := by
    simp only [FilteredPages, filter_eq_append pageSelect o]
  refine ⟨?_, ?_, hargs, ?_, by rw [hpage], ?_, by rw [hpage], by rw [hpage]; simp⟩
  · have h := scan_whereClause [] (by simp) o
    simp only [List.nil_append] at h
    rw [placeholders, h, scanAfter_flush, hn]
  · rw [filterVars_whereClauses, hn]
    simp [numberedPredicates]
  · intro i f hf
    obtain ⟨h1, h2⟩ := clause_and_argument_at o i f hf
    exact ⟨h1, placeholders_predicate f (i + 1), by rw [← hargs]; exact h2⟩
  · rw [hpage]
    simp only [placeholders, String.data_append]
    have hoff : " OFFSET ($".data = " OFFSET (".data ++ ['$'] := by decide
    have hlim : ") LIMIT ($".data = ") LIMIT (".data ++ ['$'] := by decide
    have hsplit : pageSelect.data ++ (whereClause o).data ++
        (" OFFSET ($".data ++ (toString ((whereArgs o).length + 1)).data ++ ") LIMIT ($".data
          ++ (toString ((whereArgs o).length + 2)).data ++ ")".data) =
        (pageSelect.data ++ (whereClause o).data) ++
          ((" OFFSET (".data ++ '$' :: (toString ((whereArgs o).length + 1)).data) ++
            ((") LIMIT (".data ++ '$' :: (toString ((whereArgs o).length + 2)).data) ++
              ")".data)) := by
      rw [hoff, hlim]; simp
    rw [hsplit, List.foldl_append, scan_whereClause _ (by decide) o, List.foldl_append,
      scan_placeholder " OFFSET (".data _ _ (by decide)
        (Or.inr ⟨' ', "OFFSET (".data, by decide, by decide⟩),
      List.foldl_append,
      scan_placeholder ") LIMIT (".data _ _ (by decide)
        (Or.inr ⟨')', " LIMIT (".data, by decide, by decide⟩),
      scan_plain_cons ')' [] _ (by decide) (by decide) (by simp)]
    rw [scanAfter_flush, ← hn]
    simp only [ScanState.flush]
    rw [List.range'_concat, List.range'_concat]
    simp only [Nat.one_mul, List.append_assoc, List.cons_append, List.nil_append,
      List.append_cancel_left_eq, List.cons.injEq, and_true]
    omega

/-! ## Theorems: the create handler -/

/-- C15 (evaluation of the code at the failing input).  Claimed: a patronymic that is
blank, also one made only of space characters, is saved as "N/A".  The request Oleg Petrov
with a patronymic of two spaces passes validation, its patronymic is made only of space
characters, and the Person handed to `Save` has that patronymic, not "N/A": the guard
compares with the empty string and with one space only, and a patronymic of one space, the
only whitespace the guard names, does not pass validation. -/
theorem create_two_space_patronymic_saved_as_given :
    create.validStruct { Name := "Oleg", Surname := "Petrov", Patronymic := "  " } = true ∧
    ("  ".data.all fun c => c = ' ') = true ∧
    create.New exampleEnricher exampleSaver
        (.ok { Name := "Oleg", Surname := "Petrov", Patronymic := "  " }) =
      [.enrich { Name := "Oleg", Surname := "Petrov", Patronymic := "  "
                 Age := 0, Gender := "", Nationality := "" },
        .save { Name := "Oleg", Surname := "Petrov", Patronymic := "  "
                Age := 55, Gender := "male", Nationality := "UA" },
        .json StatusOK (.created 1)] ∧
    "  " ≠ "N/A" ∧
    create.validStruct { Name := "Oleg", Surname := "Petrov", Patronymic := " " } = false ∧
    create.New exampleEnricher exampleSaver
        (.ok { Name := "Oleg", Surname := "Petrov", Patronymic := " " }) =
      [.json StatusBadRequest .ValidationError] := by
  refine ⟨by decide, by decide, by rfl, by decide, by decide, by rfl⟩

end EMTestTask
